import Mathlib

/-!
Verification of the core of the `mysql` data-access middleware (Go):
a shallow embedding in Lean 4 of the request orchestrator (`Query`,
`externalQuery`, `internalQuery`), the cache-key builder (`CreateKey`),
the query generator (`generateQuery`), the LRU-TTL in-memory store
(`InMemoryStorage`), and the keyed mutex (`KeyedMutex`), together with
theorems settling the specification claims about them.

Modelling conventions:
  * Go `time.Duration` (an `int64` nanosecond count) is `Int`.
  * Go `string` is `String`; `[]byte` payloads appended verbatim into a
    key are modelled by their byte content as a `String`.
  * Go maps are association lists; the doubly linked LRU list is the
    list of its keys in head-to-tail (MRU-to-LRU) order.
  * Interactions with external collaborators (driver, L2 store, codec,
    row handler) are oracle inputs in an `Env` record, and the cache /
    lock / database side effects of a call are recorded as an explicit
    event trace.
-/

namespace ElumMySQL

/-- Model of the `Params` argument values accepted by `CreateKey` (the Go
`any` arguments).  Every signed integer width renders in decimal, every
unsigned width renders in decimal, strings and byte slices are appended
verbatim, timestamps render as "YYYY-MM-DD HH:MM:SS", booleans as
"true"/"false".  Floating point (`strconv.AppendFloat` with precision -1)
and the `fmt` fallback are abstracted by their rendered text, since
floating-point formatting has no shallow embedding. -/
inductive Arg where
  | intArg (v : Int)
  | uintArg (v : Nat)
  | floatArg (rendered : String)
  | strArg (s : String)
  | bytesArg (s : String)
  | timeArg (year month day hour minute second : Nat)
  | boolArg (b : Bool)
  | otherArg (rendered : String)
deriving DecidableEq, Repr

/-- Model of the Go `Params` struct from `query.go`. -/
structure ParamsM where
  key : String := ""
  database : String := ""
  query : String := ""
  exec : String := ""
  args : List Arg := []
  timeout : Int := 0
  cacheDelay : Int := 0
  nodeCacheDelay : Int := 0
deriving DecidableEq, Repr

/-- Left-pads a decimal rendering with zeros to the given width, as Go's
`time.Time.AppendFormat` does for the fields of "2006-01-02 15:04:05". -/
def padNum (width n : Nat) : String :=
  let s := toString n
  (String.mk (List.replicate (width - s.length) '0')) ++ s

/-- Rendering of one argument, as `CreateKey` appends it to the key
buffer (`strconv.AppendInt`/`AppendUint` in base 10, verbatim strings
and bytes, `AppendFormat "2006-01-02 15:04:05"` for timestamps,
"true"/"false" for booleans). -/
def renderArg : Arg → String
  | .intArg v => toString v
  | .uintArg v => toString v
  | .floatArg rendered => rendered
  | .strArg s => s
  | .bytesArg s => s
  | .timeArg y mo d h mi s =>
      padNum 4 y ++ "-" ++ padNum 2 mo ++ "-" ++ padNum 2 d ++ " " ++
      padNum 2 h ++ ":" ++ padNum 2 mi ++ ":" ++ padNum 2 s
  | .boolArg b => if b then "true" else "false"
  | .otherArg rendered => rendered

/-- Placeholder loop of `generateQuery` (`query_generate.go` lines 82-90):
for each argument index, append ", " before every placeholder except the
first, then append "?". -/
def placeholderLoop (argCount : Nat) : String :=
  (List.range argCount).foldl
    (fun buf i => (if 0 < i then buf ++ ", " else buf) ++ "?") ""

/-- Embedding of `generateQuery` (`query_generate.go`): a non-empty raw
query is returned unchanged; otherwise the stored-procedure call text
"CALL <db.>proc(...)" is synthesized.  The byte-buffer pooling and size
precalculation of the source are allocation optimizations with no
observable effect on the produced string and are not modelled. -/
def generateQuery (p : ParamsM) : String :=
  if p.query ≠ "" then p.query
  else
    "CALL " ++
    (if 0 < p.database.length then p.database ++ "." else "") ++
    p.exec ++ "(" ++
    (if 0 < p.args.length then placeholderLoop p.args.length else "") ++ ")"

lemma placeholderLoop_zero : placeholderLoop 0 = "" := rfl

lemma placeholderLoop_succ (n : Nat) :
    placeholderLoop (n + 1) =
      (if 0 < n then placeholderLoop n ++ ", " else placeholderLoop n) ++ "?" := by
  unfold placeholderLoop
  rw [List.range_succ, List.foldl_append]
  rfl

lemma intercalate_go_snoc (as : List String) (acc : String) :
    String.intercalate.go acc ", " (as ++ ["?"]) =
      String.intercalate.go acc ", " as ++ ", ?" := by
  induction as generalizing acc with
  | nil =>
    show acc ++ ", " ++ "?" = acc ++ ", ?"
    rw [String.append_assoc]
    congr 1
  | cons a as ih =>
    show String.intercalate.go (acc ++ ", " ++ a) ", " (as ++ ["?"]) =
      String.intercalate.go (acc ++ ", " ++ a) ", " as ++ ", ?"
    exact ih _

lemma intercalate_replicate_succ (n : Nat) (hn : 0 < n) :
    String.intercalate ", " (List.replicate (n + 1) "?") =
      String.intercalate ", " (List.replicate n "?") ++ ", ?" := by
  obtain ⟨m, rfl⟩ : ∃ m, n = m + 1 := ⟨n - 1, by omega⟩
  show String.intercalate.go "?" ", " (List.replicate (m + 1) "?") =
    String.intercalate.go "?" ", " (List.replicate m "?") ++ ", ?"
  rw [List.replicate_succ' (n := m), intercalate_go_snoc]

lemma placeholderLoop_eq_intercalate (n : Nat) :
    placeholderLoop n = String.intercalate ", " (List.replicate n "?") := by
  induction n with
  | zero => rfl
  | succ m ih =>
    rw [placeholderLoop_succ]
    rcases Nat.eq_zero_or_pos m with hm | hm
    · subst hm; rfl
    · rw [if_pos hm, ih, intercalate_replicate_succ m hm, String.append_assoc]
      congr 1

lemma length_pos_iff_ne_empty (s : String) : 0 < s.length ↔ s ≠ "" := by
  obtain ⟨data⟩ := s
  rw [String.length_mk, List.length_pos]
  simp [String.ext_iff]

/-- Claim C7: `generateQuery` returns the raw query unchanged whenever it
is non-empty; otherwise it returns "CALL <db.>proc_name(...)" where the
database prefix and dot appear iff `database_name` is non-empty and the
parenthesized argument list is exactly N '?' placeholders separated by
", " for N arguments (empty parentheses when N = 0). -/
theorem generateQuery_spec (p : ParamsM) :
    generateQuery p =
      if p.query ≠ "" then p.query
      else
        "CALL " ++ (if p.database ≠ "" then p.database ++ "." else "") ++
        p.exec ++ "(" ++
        String.intercalate ", " (List.replicate p.args.length "?") ++ ")" := by
  unfold generateQuery
  rcases eq_or_ne p.query "" with hq | hq
  · simp only [hq, ne_eq, not_true_eq_false, if_false]
    have h1 : (if 0 < p.database.length then p.database ++ "." else "") =
        (if p.database ≠ "" then p.database ++ "." else "") := by
      rcases eq_or_ne p.database "" with hd | hd
      · rw [if_neg (by simp [hd]), if_neg (by simp [hd])]
      · rw [if_pos ((length_pos_iff_ne_empty _).mpr hd), if_pos hd]
    have h2 : (if 0 < p.args.length then placeholderLoop p.args.length else "") =
        String.intercalate ", " (List.replicate p.args.length "?") := by
      rcases Nat.eq_zero_or_pos p.args.length with ha | ha
      · rw [if_neg (by omega), ha]; rfl
      · rw [if_pos ha, placeholderLoop_eq_intercalate]
    rw [h1, h2]
  · simp [hq]

example :
    generateQuery { exec := "get_user", database := "app",
                    args := [.intArg 1, .intArg 2] } = "CALL app.get_user(?, ?)" := by
  decide

example : generateQuery { exec := "get_user" } = "CALL get_user()" := by decide

/-! MD5. `CreateKey` hashes a raw query with `crypto/md5` (Go standard
library, an external collaborator not part of this repository's sources).
Modelled from the spec: the 128-bit MD5 digest of the UTF-8 bytes of the
query, rendered as 32 lowercase hexadecimal characters (RFC 1321). -/

/-- Reduction modulo 2^32, the word size of the MD5 state. -/
def m32 (x : Nat) : Nat := x % 4294967296

/-- Left rotation of a 32-bit word by `s` bits. -/
def rotl32 (x s : Nat) : Nat := m32 (x <<< s) ||| (x >>> (32 - s))

/-- Bitwise complement of a 32-bit word. -/
def bnot32 (x : Nat) : Nat := x ^^^ 4294967295

/-- Constant table of RFC 1321 (floor(2^32 * abs(sin(i+1)))). -/
def md5K : List Nat :=
  [0xd76aa478, 0xe8c7b756, 0x242070db, 0xc1bdceee,
   0xf57c0faf, 0x4787c62a, 0xa8304613, 0xfd469501,
   0x698098d8, 0x8b44f7af, 0xffff5bb1, 0x895cd7be,
   0x6b901122, 0xfd987193, 0xa679438e, 0x49b40821,
   0xf61e2562, 0xc040b340, 0x265e5a51, 0xe9b6c7aa,
   0xd62f105d, 0x02441453, 0xd8a1e681, 0xe7d3fbc8,
   0x21e1cde6, 0xc33707d6, 0xf4d50d87, 0x455a14ed,
   0xa9e3e905, 0xfcefa3f8, 0x676f02d9, 0x8d2a4c8a,
   0xfffa3942, 0x8771f681, 0x6d9d6122, 0xfde5380c,
   0xa4beea44, 0x4bdecfa9, 0xf6bb4b60, 0xbebfbc70,
   0x289b7ec6, 0xeaa127fa, 0xd4ef3085, 0x04881d05,
   0xd9d4d039, 0xe6db99e5, 0x1fa27cf8, 0xc4ac5665,
   0xf4292244, 0x432aff97, 0xab9423a7, 0xfc93a039,
   0x655b59c3, 0x8f0ccc92, 0xffeff47d, 0x85845dd1,
   0x6fa87e4f, 0xfe2ce6e0, 0xa3014314, 0x4e0811a1,
   0xf7537e82, 0xbd3af235, 0x2ad7d2bb, 0xeb86d391]

/-- Per-round shift amounts of RFC 1321. -/
def md5S : List Nat :=
  [7, 12, 17, 22, 7, 12, 17, 22, 7, 12, 17, 22, 7, 12, 17, 22,
   5, 9, 14, 20, 5, 9, 14, 20, 5, 9, 14, 20, 5, 9, 14, 20,
   4, 11, 16, 23, 4, 11, 16, 23, 4, 11, 16, 23, 4, 11, 16, 23,
   6, 10, 15, 21, 6, 10, 15, 21, 6, 10, 15, 21, 6, 10, 15, 21]

/-- Round function F. -/
def fF (b c d : Nat) : Nat := (b &&& c) ||| (bnot32 b &&& d)

/-- Round function G. -/
def fG (b c d : Nat) : Nat := (d &&& b) ||| (bnot32 d &&& c)

/-- Round function H. -/
def fH (b c d : Nat) : Nat := b ^^^ c ^^^ d

/-- Round function I. -/
def fI (b c d : Nat) : Nat := c ^^^ (b ||| bnot32 d)

/-- The four-word MD5 chaining state. -/
structure Md5State where
  a : Nat
  b : Nat
  c : Nat
  d : Nat
deriving DecidableEq, Repr

/-- One of the 64 steps of an MD5 block computation. -/
def md5step (M : List Nat) (st : Md5State) (i : Nat) : Md5State :=
  let f := if i < 16 then fF st.b st.c st.d
           else if i < 32 then fG st.b st.c st.d
           else if i < 48 then fH st.b st.c st.d
           else fI st.b st.c st.d
  let g := if i < 16 then i
           else if i < 32 then (5 * i + 1) % 16
           else if i < 48 then (3 * i + 5) % 16
           else (7 * i) % 16
  let tmp := m32 (st.a + f + md5K.getD i 0 + M.getD g 0)
  { a := st.d, b := m32 (st.b + rotl32 tmp (md5S.getD i 0)), c := st.b, d := st.c }

/-- Little-endian 32-bit word read from the head of a byte list. -/
def leWord (bytes : List Nat) : Nat :=
  bytes.getD 0 0 + 256 * bytes.getD 1 0 + 65536 * bytes.getD 2 0 +
    16777216 * bytes.getD 3 0

/-- The sixteen little-endian message words of one 64-byte block. -/
def blockWords (blk : List Nat) : List Nat :=
  (List.range 16).map (fun j => leWord (blk.drop (4 * j)))

/-- Processes one 64-byte block into the chaining state. -/
def md5block (st : Md5State) (blk : List Nat) : Md5State :=
  let M := blockWords blk
  let r := (List.range 64).foldl (md5step M) st
  { a := m32 (st.a + r.a), b := m32 (st.b + r.b),
    c := m32 (st.c + r.c), d := m32 (st.d + r.d) }

/-- Block loop: processes `n` consecutive 64-byte blocks. -/
def md5loop : Nat → Md5State → List Nat → Md5State
  | 0, st, _ => st
  | n + 1, st, bytes => md5loop n (md5block st (bytes.take 64)) (bytes.drop 64)

/-- Processes a padded message (whose length is a positive multiple of
64) one 64-byte block at a time. -/
def md5blocks (st : Md5State) (bytes : List Nat) : Md5State :=
  md5loop (bytes.length / 64) st bytes

/-- MD5 padding: a 0x80 byte, zeros to 56 mod 64, then the bit length as
a 64-bit little-endian quantity. -/
def md5pad (msg : List Nat) : List Nat :=
  msg ++ [128] ++ List.replicate ((120 - (msg.length + 1) % 64) % 64) 0 ++
    (List.range 8).map (fun i => msg.length * 8 / 256 ^ i % 256)

/-- Little-endian byte rendering of a 32-bit word. -/
def wordLEBytes (w : Nat) : List Nat :=
  [w % 256, w / 256 % 256, w / 65536 % 256, w / 16777216 % 256]

/-- The sixteen digest bytes of a message. -/
def md5bytes (msg : List Nat) : List Nat :=
  let st := md5blocks ⟨0x67452301, 0xefcdab89, 0x98badcfe, 0x10325476⟩ (md5pad msg)
  wordLEBytes st.a ++ wordLEBytes st.b ++ wordLEBytes st.c ++ wordLEBytes st.d

/-- Lowercase hexadecimal digit characters. -/
def hexChar (n : Nat) : Char :=
  match n with
  | 0 => '0' | 1 => '1' | 2 => '2' | 3 => '3'
  | 4 => '4' | 5 => '5' | 6 => '6' | 7 => '7'
  | 8 => '8' | 9 => '9' | 10 => 'a' | 11 => 'b'
  | 12 => 'c' | 13 => 'd' | 14 => 'e' | 15 => 'f'
  | _ => '*'

/-- Lowercase hexadecimal rendering of a byte list (`encoding/hex`). -/
def bytesToHex (bs : List Nat) : String :=
  String.mk ((bs.map (fun b => [hexChar (b / 16), hexChar (b % 16)])).flatten)

/-- UTF-8 encoding of one character (Go's `[]byte(string)` conversion). -/
def charUtf8 (c : Char) : List Nat :=
  let n := c.toNat
  if n < 128 then [n]
  else if n < 2048 then [192 + n / 64, 128 + n % 64]
  else if n < 65536 then [224 + n / 4096, 128 + n / 64 % 64, 128 + n % 64]
  else [240 + n / 262144, 128 + n / 4096 % 64, 128 + n / 64 % 64, 128 + n % 64]

/-- UTF-8 bytes of a string. -/
def utf8Bytes (s : String) : List Nat := (s.toList.map charUtf8).flatten

/-- The lowercase 32-hex-character MD5 of a string, as `CreateKey` embeds
it into a cache key. -/
def md5hex (q : String) : String := bytesToHex (md5bytes (utf8Bytes q))

/-- Model of the fields of the Go `MySQL` client struct that the
orchestrator logic reads: the configured database name, the
`CacheEnabled` flag, and whether an external L2 store is configured
(`c.cache != nil`). -/
structure Conn where
  dbName : String := ""
  cacheEnabled : Bool := false
  hasL2 : Bool := false
deriving DecidableEq, Repr

/-- Embedding of `CreateKey(params, mysql)`: the effective database name
(request's `Database` if non-empty, else the client's `dbName` when the
client pointer is non-nil) followed by ':' when present; then `Exec`,
else the MD5 hex of `Query`, else "unknown"; then ':' plus the rendering
of each argument.  The exact-size buffer precalculation of the source is
an allocation optimization with no observable effect on the returned
string and is not modelled. -/
def CreateKey (p : ParamsM) (mysql : Option Conn) : String :=
  let db := if p.database = "" then
              (match mysql with
               | some c => c.dbName
               | none => "")
            else p.database
  (if db ≠ "" then db ++ ":" else "") ++
  (if p.exec ≠ "" then p.exec
   else if p.query ≠ "" then md5hex p.query
   else "unknown") ++
  String.join (p.args.map (fun a => ":" ++ renderArg a))

/-- Membership test in the lowercase hexadecimal alphabet. -/
def isHexLowerDigit (c : Char) : Bool :=
  ("0123456789abcdef".toList).contains c

lemma toList_mk (l : List Char) : (String.mk l).toList = l := rfl

lemma hexChar_hex {n : Nat} (h : n < 16) : isHexLowerDigit (hexChar n) = true := by
  interval_cases n <;> decide

lemma wordLEBytes_lt (w : Nat) : ∀ b ∈ wordLEBytes w, b < 256 := by
  intro b hb
  simp only [wordLEBytes, List.mem_cons, List.not_mem_nil, or_false] at hb
  rcases hb with h | h | h | h <;> subst h <;> exact Nat.mod_lt _ (by omega)

lemma md5bytes_lt (msg : List Nat) : ∀ b ∈ md5bytes msg, b < 256 := by
  intro b hb
  rw [md5bytes] at hb
  simp only [List.mem_append] at hb
  rcases hb with ((h | h) | h) | h <;> exact wordLEBytes_lt _ b h

lemma md5bytes_length (msg : List Nat) : (md5bytes msg).length = 16 := by
  simp [md5bytes, wordLEBytes]

lemma bytesToHex_length (bs : List Nat) : (bytesToHex bs).length = 2 * bs.length := by
  induction bs with
  | nil => rfl
  | cons b t ih =>
    simp only [bytesToHex, List.map_cons, List.flatten_cons, String.length_mk,
      List.length_append, List.length_cons, List.length_nil] at ih ⊢
    omega

lemma bytesToHex_all_hex (bs : List Nat) (h : ∀ b ∈ bs, b < 256) :
    (bytesToHex bs).toList.all isHexLowerDigit = true := by
  induction bs with
  | nil => rfl
  | cons b t ih =>
    have hb : b < 256 := h b (List.mem_cons_self b t)
    have hhi : b / 16 < 16 := by omega
    have hlo : b % 16 < 16 := Nat.mod_lt _ (by omega)
    simp only [bytesToHex, List.map_cons, List.flatten_cons, toList_mk,
      List.cons_append, List.nil_append, List.all_cons, hexChar_hex hhi,
      hexChar_hex hlo, Bool.true_and]
    exact ih (fun x hx => h x (List.mem_cons_of_mem b hx))

lemma md5hex_length (q : String) : (md5hex q).length = 32 := by
  rw [md5hex, bytesToHex_length, md5bytes_length]

lemma md5hex_hex (q : String) : (md5hex q).toList.all isHexLowerDigit = true :=
  bytesToHex_all_hex _ (md5bytes_lt _)

set_option maxRecDepth 100000 in
/-- Claim C6: `CreateKey` is deterministic (a pure function of the
database name, procedure name, raw query and arguments — it never reads
the cache-key override, timeout or TTL fields), and produces the
database prefix / procedure-or-MD5-or-"unknown" / colon-separated
argument format, with the raw-query case hashed to 32 lowercase hex
characters; the claim's concrete example and the repository's further
key examples evaluate as stated. -/
theorem CreateKey_spec :
    (∀ (p₁ p₂ : ParamsM) (c : Option Conn), p₁.database = p₂.database →
      p₁.exec = p₂.exec → p₁.query = p₂.query → p₁.args = p₂.args →
      CreateKey p₁ c = CreateKey p₂ c) ∧
    (∀ q : String, (md5hex q).length = 32 ∧
      (md5hex q).toList.all isHexLowerDigit = true) ∧
    CreateKey { database := "shop", exec := "product_get",
                args := [.intArg 746457348, .intArg 20, .intArg 350] } none =
      "shop:product_get:746457348:20:350" ∧
    CreateKey { query := "SELECT * FROM users WHERE id = ?", args := [.intArg 42] }
        (some { dbName := "shop" }) = "shop:f15e5e09c27c92be6ed2b586d171d68a:42" ∧
    CreateKey { exec := "ping" } (some { dbName := "" }) = "ping" ∧
    CreateKey { exec := "user_create",
                args := [.strArg "John", .timeArg 2024 11 17 10 0 0] }
        (some { dbName := "shop" }) = "shop:user_create:John:2024-11-17 10:00:00" := by
  refine ⟨?_, fun q => ⟨md5hex_length q, md5hex_hex q⟩, by decide, by decide,
    by decide, by decide⟩
  intro p₁ p₂ c h₁ h₂ h₃ h₄
  unfold CreateKey
  rw [h₁, h₂, h₃, h₄]

/-- Witness for C6: the determinism clause applied at two concrete
parameter records differing only in cache-key override and TTLs. -/
theorem CreateKey_spec_witness :
    CreateKey { key := "override", exec := "ping", cacheDelay := 5 } none =
      CreateKey { exec := "ping" } none :=
  CreateKey_spec.1 _ _ _ rfl rfl rfl rfl

/-! LRU-TTL store.  Embedding of `InMemoryStorage` from
`in_memory_storage.go`: the hash map `items` is an association list, the
doubly linked list is the list of its keys in head-to-tail (MRU-to-LRU)
order, `curSize`/`maxSize` are the Go `int` counters and `creationTime`
is the epoch timestamp (nanoseconds).  The `sync.Pool` of recycled
entries has no observable effect on Get/Set/Delete/Reset results and is
not modelled. -/

/-- One cache entry: the stored value and its TTL measured from the
store's creation time (`expiresIn`). -/
structure EntryS (V : Type) where
  value : V
  expiresIn : Int
deriving DecidableEq, Repr

/-- State of `InMemoryStorage`. -/
structure StoreState (V : Type) where
  items : List (String × EntryS V)
  order : List String
  curSize : Int
  maxSize : Int
  creationTime : Int
deriving DecidableEq, Repr

/-- Go map lookup `s.items[key]`. -/
def lookupKey {V : Type} : List (String × EntryS V) → String → Option (EntryS V)
  | [], _ => none
  | kv :: rest, k => if kv.1 = k then some kv.2 else lookupKey rest k

/-- Go map removal `delete(s.items, key)`. -/
def eraseKey {V : Type} : List (String × EntryS V) → String → List (String × EntryS V)
  | [], _ => []
  | kv :: rest, k => if kv.1 = k then eraseKey rest k else kv :: eraseKey rest k

/-- Go in-place update of the entry stored under a key (`old.value = val;
old.expiresIn = exp`). -/
def updateKey {V : Type} : List (String × EntryS V) → String → EntryS V →
    List (String × EntryS V)
  | [], _, _ => []
  | kv :: rest, k, e =>
      if kv.1 = k then (kv.1, e) :: updateKey rest k e else kv :: updateKey rest k e

/-- Embedding of `removeElement`: splice the node out of the list, delete
the key from the map, decrement `curSize`. -/
def removeElement {V : Type} (s : StoreState V) (k : String) : StoreState V :=
  { s with items := eraseKey s.items k,
           order := s.order.erase k,
           curSize := s.curSize - 1 }

/-- Embedding of `moveToFront`: nothing when the entry is already the
head, otherwise splice it out and push it at the front. -/
def moveToFront {V : Type} (s : StoreState V) (k : String) : StoreState V :=
  match s.order with
  | [] => s
  | h :: _ => if h = k then s else { s with order := k :: s.order.erase k }

/-- Embedding of `evict`: remove the tail (least recently used) entry;
no-op when the list is empty. -/
def evict {V : Type} (s : StoreState V) : StoreState V :=
  match s.order.getLast? with
  | none => s
  | some k => removeElement s k

/-- Embedding of `Get` (`in_memory_storage.go` lines 180-197): absent key
is NotFound (`none`); an entry with `expiresIn > 0` and
`now - creationTime > expiresIn` is removed and NotFound; otherwise the
entry moves to the front and its value is returned. -/
def storeGet {V : Type} (s : StoreState V) (now : Int) (k : String) :
    StoreState V × Option V :=
  match lookupKey s.items k with
  | none => (s, none)
  | some e =>
    if 0 < e.expiresIn ∧ e.expiresIn < now - s.creationTime then
      (removeElement s k, none)
    else (moveToFront s k, some e.value)

/-- State after the insertion steps of `Set` for a fresh key: push the
new entry at the front of the list, insert it into the map, increment
`curSize`. -/
def insertFresh {V : Type} (s : StoreState V) (k : String) (v : V) (exp : Int) :
    StoreState V :=
  { s with items := (k, ⟨v, exp⟩) :: s.items,
           order := k :: s.order,
           curSize := s.curSize + 1 }

/-- Embedding of `Set` (`in_memory_storage.go` lines 203-242): an
existing key is updated in place and moved to the front; a fresh key is
pushed at the front, inserted into the map and counted, and the tail is
evicted when the bound is exceeded. -/
def storeSet {V : Type} (s : StoreState V) (k : String) (v : V) (exp : Int) :
    StoreState V :=
  match lookupKey s.items k with
  | some _ => moveToFront { s with items := updateKey s.items k ⟨v, exp⟩ } k
  | none =>
    if (insertFresh s k v exp).maxSize < (insertFresh s k v exp).curSize then
      evict (insertFresh s k v exp)
    else insertFresh s k v exp

/-- Embedding of `Delete`: remove a present key (returning success),
NotFound otherwise. -/
def storeDelete {V : Type} (s : StoreState V) (k : String) : StoreState V × Bool :=
  match lookupKey s.items k with
  | none => (s, false)
  | some _ => (removeElement s k, true)

/-- Embedding of `Reset`: drop all entries, zero the size, refresh the
epoch. -/
def storeReset {V : Type} (s : StoreState V) (now : Int) : StoreState V :=
  { items := [], order := [], curSize := 0, maxSize := s.maxSize, creationTime := now }

/-- Embedding of `NewInMemoryStorage maxSize`. -/
def newStore (V : Type) (maxSize : Int) (now : Int) : StoreState V :=
  { items := [], order := [], curSize := 0, maxSize := maxSize, creationTime := now }

/-- One external operation on the store. -/
inductive StoreOp (V : Type) where
  | get (now : Int) (k : String)
  | set (k : String) (v : V) (exp : Int)
  | del (k : String)
  | reset (now : Int)

/-- Applies one operation, keeping the resulting state. -/
def applyOp {V : Type} (s : StoreState V) : StoreOp V → StoreState V
  | .get now k => (storeGet s now k).1
  | .set k v exp => storeSet s k v exp
  | .del k => (storeDelete s k).1
  | .reset now => storeReset s now

/-- Applies a sequence of operations in order. -/
def applyOps {V : Type} (s : StoreState V) (ops : List (StoreOp V)) : StoreState V :=
  ops.foldl applyOp s

/-- Keys held by the map. -/
def keysOf {V : Type} (items : List (String × EntryS V)) : List String :=
  items.map Prod.fst

/-- Structural part of the store invariant: the linked list has no
duplicate keys, the map and the list agree on membership, and `curSize`
counts the entries. -/
structure StoreShape {V : Type} (s : StoreState V) : Prop where
  orderNodup : s.order.Nodup
  memIff : ∀ k, k ∈ keysOf s.items ↔ k ∈ s.order
  sizeEq : s.curSize = (s.order.length : Int)

/-- Full store invariant: shape plus the cardinality bound. -/
def StoreInv {V : Type} (s : StoreState V) : Prop :=
  StoreShape s ∧ s.curSize ≤ s.maxSize

lemma keysOf_cons {V : Type} (kv : String × EntryS V)
    (rest : List (String × EntryS V)) :
    keysOf (kv :: rest) = kv.1 :: keysOf rest := rfl

lemma lookupKey_eq_none {V : Type} {items : List (String × EntryS V)} {k : String} :
    lookupKey items k = none ↔ k ∉ keysOf items := by
  induction items with
  | nil => simp [lookupKey, keysOf]
  | cons kv rest ih =>
    rw [keysOf_cons, List.mem_cons]
    by_cases hk : kv.1 = k
    · rw [lookupKey, if_pos hk]
      simp [hk.symm]
    · rw [lookupKey, if_neg hk, ih]
      have hne : ¬ k = kv.1 := fun h => hk h.symm
      simp [hne]

lemma lookupKey_isSome {V : Type} {items : List (String × EntryS V)} {k : String} :
    (lookupKey items k).isSome ↔ k ∈ keysOf items := by
  rcases h : lookupKey items k with _ | e
  · simpa [h] using lookupKey_eq_none.mp h
  · simp only [Option.isSome_some, true_iff]
    by_contra hmem
    rw [lookupKey_eq_none.mpr hmem] at h
    cases h

lemma mem_keysOf_eraseKey {V : Type} {items : List (String × EntryS V)}
    {k k' : String} :
    k' ∈ keysOf (eraseKey items k) ↔ k' ∈ keysOf items ∧ k' ≠ k := by
  induction items with
  | nil => simp [eraseKey, keysOf]
  | cons kv rest ih =>
    by_cases hk : kv.1 = k
    · rw [eraseKey, if_pos hk, ih, keysOf_cons, List.mem_cons]
      constructor
      · exact fun h => ⟨Or.inr h.1, h.2⟩
      · rintro ⟨h1 | h1, h2⟩
        · exact absurd (h1.trans hk) h2
        · exact ⟨h1, h2⟩
    · rw [eraseKey, if_neg hk, keysOf_cons, keysOf_cons, List.mem_cons,
        List.mem_cons, ih]
      by_cases hk' : k' = kv.1
      · have hne : k' ≠ k := fun hc => hk (hk'.symm.trans hc)
        tauto
      · tauto

lemma keysOf_updateKey {V : Type} (items : List (String × EntryS V)) (k : String)
    (e : EntryS V) : keysOf (updateKey items k e) = keysOf items := by
  induction items with
  | nil => rfl
  | cons kv rest ih =>
    by_cases hk : kv.1 = k
    · rw [updateKey, if_pos hk, keysOf_cons, keysOf_cons, ih]
    · rw [updateKey, if_neg hk, keysOf_cons, keysOf_cons, ih]

lemma lookupKey_updateKey_self {V : Type} {items : List (String × EntryS V)}
    {k : String} (e : EntryS V) (h : k ∈ keysOf items) :
    lookupKey (updateKey items k e) k = some e := by
  induction items with
  | nil => simp [keysOf] at h
  | cons kv rest ih =>
    by_cases hk : kv.1 = k
    · rw [updateKey, if_pos hk]
      show (if kv.1 = k then some e else lookupKey (updateKey rest k e) k) = some e
      rw [if_pos hk]
    · have hmem : k ∈ keysOf rest := by
        rcases List.mem_cons.mp (by rwa [keysOf_cons] at h) with h1 | h1
        · exact absurd h1.symm hk
        · exact h1
      rw [updateKey, if_neg hk, lookupKey, if_neg hk, ih hmem]

lemma lookupKey_eraseKey_ne {V : Type} {items : List (String × EntryS V)}
    {k t : String} (h : t ≠ k) :
    lookupKey (eraseKey items t) k = lookupKey items k := by
  induction items with
  | nil => rfl
  | cons kv rest ih =>
    by_cases hk : kv.1 = t
    · have hkk : ¬ kv.1 = k := fun hc => h (hk.symm.trans hc)
      rw [eraseKey, if_pos hk, ih, lookupKey, if_neg hkk]
    · rw [eraseKey, if_neg hk, lookupKey, lookupKey, ih]

lemma moveToFront_items {V : Type} (s : StoreState V) (k : String) :
    (moveToFront s k).items = s.items := by
  unfold moveToFront
  rcases s.order with _ | ⟨h, t⟩
  · rfl
  · by_cases hh : h = k <;> simp [hh]

lemma moveToFront_scalars {V : Type} (s : StoreState V) (k : String) :
    (moveToFront s k).curSize = s.curSize ∧ (moveToFront s k).maxSize = s.maxSize ∧
      (moveToFront s k).creationTime = s.creationTime := by
  unfold moveToFront
  rcases s.order with _ | ⟨h, t⟩
  · exact ⟨rfl, rfl, rfl⟩
  · by_cases hh : h = k <;> simp [hh]

lemma moveToFront_order {V : Type} (s : StoreState V) (k : String)
    (hk : k ∈ s.order) :
    (moveToFront s k).order = k :: s.order.erase k := by
  unfold moveToFront
  rcases horder : s.order with _ | ⟨h, t⟩
  · rw [horder] at hk; cases hk
  · show (if h = k then s else { s with order := k :: (h :: t).erase k }).order =
      k :: (h :: t).erase k
    by_cases hh : h = k
    · rw [if_pos hh, horder, hh, List.erase_cons_head]
    · rw [if_neg hh]

lemma storeShape_moveToFront {V : Type} {s : StoreState V} {k : String}
    (hs : StoreShape s) (hk : k ∈ s.order) : StoreShape (moveToFront s k) := by
  have horder := moveToFront_order s k hk
  have hitems := moveToFront_items s k
  have hsc := moveToFront_scalars s k
  refine ⟨?_, ?_, ?_⟩
  · rw [horder]
    exact List.nodup_cons.mpr ⟨hs.orderNodup.not_mem_erase, hs.orderNodup.erase k⟩
  · intro k'
    rw [hitems, horder, hs.memIff k', List.mem_cons]
    constructor
    · rintro h
      rcases eq_or_ne k' k with rfl | hne
      · exact Or.inl rfl
      · exact Or.inr ((List.mem_erase_of_ne hne).mpr h)
    · rintro (rfl | h)
      · exact hk
      · exact List.mem_of_mem_erase h
  · rw [hsc.1, horder, hs.sizeEq]
    have : (s.order.erase k).length = s.order.length - 1 :=
      List.length_erase_of_mem hk
    have hpos : 0 < s.order.length := List.length_pos.mpr (List.ne_nil_of_mem hk)
    simp only [List.length_cons, this]
    omega

lemma storeShape_removeElement {V : Type} {s : StoreState V} {t : String}
    (hs : StoreShape s) (ht : t ∈ s.order) : StoreShape (removeElement s t) := by
  refine ⟨hs.orderNodup.erase t, ?_, ?_⟩
  · intro k'
    simp only [removeElement, mem_keysOf_eraseKey, hs.memIff k',
      hs.orderNodup.mem_erase_iff]
    tauto
  · have : (s.order.erase t).length = s.order.length - 1 :=
      List.length_erase_of_mem ht
    have hpos : 0 < s.order.length := List.length_pos.mpr (List.ne_nil_of_mem ht)
    simp only [removeElement, this, hs.sizeEq]
    omega

lemma lookupKey_mem_of_some {V : Type} {items : List (String × EntryS V)}
    {k : String} {e : EntryS V} (h : lookupKey items k = some e) :
    k ∈ keysOf items := by
  by_contra hmem
  rw [lookupKey_eq_none.mpr hmem] at h
  cases h

lemma lookupKey_eraseKey_self {V : Type} (items : List (String × EntryS V))
    (k : String) : lookupKey (eraseKey items k) k = none :=
  lookupKey_eq_none.mpr (fun h => (mem_keysOf_eraseKey.mp h).2 rfl)

lemma storeGet_none_eq {V : Type} {s : StoreState V} {now : Int} {k : String}
    (hl : lookupKey s.items k = none) : storeGet s now k = (s, none) := by
  unfold storeGet
  rw [hl]

lemma storeGet_expired_eq {V : Type} {s : StoreState V} {now : Int} {k : String}
    {e : EntryS V} (hl : lookupKey s.items k = some e)
    (hc : 0 < e.expiresIn ∧ e.expiresIn < now - s.creationTime) :
    storeGet s now k = (removeElement s k, none) := by
  unfold storeGet
  rw [hl]
  show (if 0 < e.expiresIn ∧ e.expiresIn < now - s.creationTime then
      (removeElement s k, none) else (moveToFront s k, some e.value)) =
    (removeElement s k, none)
  rw [if_pos hc]

lemma storeGet_live_eq {V : Type} {s : StoreState V} {now : Int} {k : String}
    {e : EntryS V} (hl : lookupKey s.items k = some e)
    (hc : ¬ (0 < e.expiresIn ∧ e.expiresIn < now - s.creationTime)) :
    storeGet s now k = (moveToFront s k, some e.value) := by
  unfold storeGet
  rw [hl]
  show (if 0 < e.expiresIn ∧ e.expiresIn < now - s.creationTime then
      (removeElement s k, none) else (moveToFront s k, some e.value)) =
    (moveToFront s k, some e.value)
  rw [if_neg hc]

lemma storeSet_update_eq {V : Type} {s : StoreState V} {k : String} (v : V)
    (exp : Int) {e : EntryS V} (hl : lookupKey s.items k = some e) :
    storeSet s k v exp =
      moveToFront { s with items := updateKey s.items k ⟨v, exp⟩ } k := by
  unfold storeSet
  rw [hl]

lemma storeSet_fresh_small_eq {V : Type} {s : StoreState V} {k : String} (v : V)
    (exp : Int) (hl : lookupKey s.items k = none)
    (hc : ¬ s.maxSize < s.curSize + 1) :
    storeSet s k v exp = insertFresh s k v exp := by
  unfold storeSet
  rw [hl]
  show (if (insertFresh s k v exp).maxSize < (insertFresh s k v exp).curSize then
      evict (insertFresh s k v exp) else insertFresh s k v exp) =
    insertFresh s k v exp
  rw [if_neg (show ¬ (insertFresh s k v exp).maxSize <
    (insertFresh s k v exp).curSize from hc)]

lemma storeSet_full_fresh {V : Type} (s : StoreState V) (k : String) (v : V)
    (exp : Int) (hl : lookupKey s.items k = none)
    (hc : s.maxSize < s.curSize + 1) :
    storeSet s k v exp = removeElement (insertFresh s k v exp)
      ((k :: s.order).getLast (List.cons_ne_nil _ _)) := by
  unfold storeSet
  rw [hl]
  show (if (insertFresh s k v exp).maxSize < (insertFresh s k v exp).curSize then
      evict (insertFresh s k v exp) else insertFresh s k v exp) = _
  rw [if_pos (show (insertFresh s k v exp).maxSize < (insertFresh s k v exp).curSize
    from hc)]
  unfold evict
  show (match (k :: s.order).getLast? with
    | none => insertFresh s k v exp
    | some t => removeElement (insertFresh s k v exp) t) = _
  rw [List.getLast?_eq_getLast (k :: s.order) (List.cons_ne_nil _ _)]

lemma storeSet_creationTime {V : Type} (s : StoreState V) (k : String) (v : V)
    (exp : Int) : (storeSet s k v exp).creationTime = s.creationTime := by
  cases hl : lookupKey s.items k with
  | some e =>
    rw [storeSet_update_eq v exp hl]
    exact (moveToFront_scalars _ k).2.2
  | none =>
    by_cases hc : s.maxSize < s.curSize + 1
    · rw [storeSet_full_fresh s k v exp hl hc]
      rfl
    · rw [storeSet_fresh_small_eq v exp hl hc]
      rfl

lemma lookupKey_storeSet_self {V : Type} (s : StoreState V) (k : String) (v : V)
    (exp : Int) (hs : StoreShape s) (hmax : 0 < s.maxSize) :
    lookupKey (storeSet s k v exp).items k = some ⟨v, exp⟩ := by
  cases hl : lookupKey s.items k with
  | some e =>
    rw [storeSet_update_eq v exp hl, moveToFront_items]
    exact lookupKey_updateKey_self _ (lookupKey_mem_of_some hl)
  | none =>
    by_cases hc : s.maxSize < s.curSize + 1
    · rw [storeSet_full_fresh s k v exp hl hc]
      have hcs : 0 < s.curSize := by omega
      have hord : s.order ≠ [] := by
        intro h0
        rw [hs.sizeEq, h0] at hcs
        simp at hcs
      have ht : (k :: s.order).getLast (List.cons_ne_nil _ _) =
          s.order.getLast hord := List.getLast_cons hord
      have htk : (k :: s.order).getLast (List.cons_ne_nil _ _) ≠ k := by
        rw [ht]
        intro heq
        have hmem : s.order.getLast hord ∈ s.order := List.getLast_mem hord
        rw [heq] at hmem
        exact (lookupKey_eq_none.mp hl) ((hs.memIff k).mpr hmem)
      show lookupKey (eraseKey ((k, ⟨v, exp⟩) :: s.items)
        ((k :: s.order).getLast (List.cons_ne_nil _ _))) k = some ⟨v, exp⟩
      rw [lookupKey_eraseKey_ne htk]
      simp [lookupKey]
    · rw [storeSet_fresh_small_eq v exp hl hc]
      show lookupKey ((k, ⟨v, exp⟩) :: s.items) k = some ⟨v, exp⟩
      simp [lookupKey]

/-- Claim C4: `Get(k)` returns NotFound when `k` is absent; when `k` is
present with `expires_in > 0` and `now - epoch > expires_in` it removes
the entry and returns NotFound; otherwise it moves the entry to the head
of the list and returns its value.  The TTL is measured from the store's
epoch: `Set` records no insertion time and leaves the epoch unchanged, so
a freshly set entry with positive TTL is visible at time `now` exactly
when `now - epoch` has not passed the TTL. -/
theorem storeGet_spec {V : Type} (s : StoreState V) (now : Int) (k : String)
    (hi : StoreInv s) :
    (lookupKey s.items k = none → storeGet s now k = (s, none)) ∧
    (∀ e : EntryS V, lookupKey s.items k = some e →
      0 < e.expiresIn → e.expiresIn < now - s.creationTime →
      storeGet s now k = (removeElement s k, none) ∧
      lookupKey (removeElement s k).items k = none) ∧
    (∀ e : EntryS V, lookupKey s.items k = some e →
      ¬ (0 < e.expiresIn ∧ e.expiresIn < now - s.creationTime) →
      storeGet s now k = (moveToFront s k, some e.value) ∧
      (moveToFront s k).order = k :: s.order.erase k) ∧
    (∀ (v : V) (exp : Int), 0 < s.maxSize → 0 < exp →
      (storeGet (storeSet s k v exp) now k).2 =
        (if exp < now - s.creationTime then none else some v) ∧
      (storeSet s k v exp).creationTime = s.creationTime) := by
  refine ⟨?_, ?_, ?_, ?_⟩
  · intro h
    exact storeGet_none_eq h
  · intro e he h1 h2
    exact ⟨storeGet_expired_eq he ⟨h1, h2⟩, lookupKey_eraseKey_self _ _⟩
  · intro e he hc
    have hk : k ∈ s.order := (hi.1.memIff k).mp (lookupKey_mem_of_some he)
    exact ⟨storeGet_live_eq he hc, moveToFront_order s k hk⟩
  · intro v exp hmax hexp
    have hset : lookupKey (storeSet s k v exp).items k = some ⟨v, exp⟩ :=
      lookupKey_storeSet_self s k v exp hi.1 hmax
    have hct : (storeSet s k v exp).creationTime = s.creationTime :=
      storeSet_creationTime s k v exp
    refine ⟨?_, hct⟩
    by_cases hc : exp < now - s.creationTime
    · have hred : storeGet (storeSet s k v exp) now k =
          (removeElement (storeSet s k v exp) k, none) :=
        storeGet_expired_eq hset ⟨hexp, by rw [hct]; exact hc⟩
      rw [hred, if_pos hc]
    · have hred : storeGet (storeSet s k v exp) now k =
          (moveToFront (storeSet s k v exp) k, some v) :=
        storeGet_live_eq hset (fun hx => hc (by rw [← hct]; exact hx.2))
      rw [hred, if_neg hc]

/-- Witness for C4: the non-expired branch at a one-entry store. -/
theorem storeGet_spec_witness :
    storeGet (⟨[("a", ⟨42, 5⟩)], ["a"], 1, 10, 0⟩ : StoreState Nat) 3 "a" =
      (moveToFront (⟨[("a", ⟨42, 5⟩)], ["a"], 1, 10, 0⟩ : StoreState Nat) "a",
        some 42) :=
  ((storeGet_spec (⟨[("a", ⟨42, 5⟩)], ["a"], 1, 10, 0⟩ : StoreState Nat) 3 "a"
    ⟨⟨by decide, fun _ => Iff.rfl, rfl⟩, by decide⟩).2.2.1
    ⟨42, 5⟩ rfl (by decide)).1

lemma storeInv_moveToFront {V : Type} {s : StoreState V} {k : String}
    (hi : StoreInv s) (hk : k ∈ s.order) : StoreInv (moveToFront s k) := by
  refine ⟨storeShape_moveToFront hi.1 hk, ?_⟩
  rcases moveToFront_scalars s k with ⟨h1, h2, _⟩
  rw [h1, h2]
  exact hi.2

lemma storeInv_get {V : Type} (s : StoreState V) (now : Int) (k : String)
    (hi : StoreInv s) : StoreInv (storeGet s now k).1 := by
  cases hl : lookupKey s.items k with
  | none =>
    rw [storeGet_none_eq hl]
    exact hi
  | some e =>
    have hk : k ∈ s.order := (hi.1.memIff k).mp (lookupKey_mem_of_some hl)
    by_cases hc : 0 < e.expiresIn ∧ e.expiresIn < now - s.creationTime
    · rw [storeGet_expired_eq hl hc]
      refine ⟨storeShape_removeElement hi.1 hk, ?_⟩
      show s.curSize - 1 ≤ s.maxSize
      have := hi.2
      omega
    · rw [storeGet_live_eq hl hc]
      exact storeInv_moveToFront hi hk

lemma storeShape_insertFresh {V : Type} {s : StoreState V} {k : String} {v : V}
    {exp : Int} (hs : StoreShape s) (hkno : k ∉ s.order) :
    StoreShape (insertFresh s k v exp) := by
  refine ⟨List.nodup_cons.mpr ⟨hkno, hs.orderNodup⟩, ?_, ?_⟩
  · intro k'
    show k' ∈ keysOf ((k, ⟨v, exp⟩) :: s.items) ↔ k' ∈ k :: s.order
    rw [keysOf_cons, List.mem_cons, List.mem_cons, hs.memIff k']
  · show s.curSize + 1 = ((k :: s.order).length : Int)
    rw [List.length_cons, hs.sizeEq]
    push_cast
    ring

lemma storeInv_set {V : Type} (s : StoreState V) (k : String) (v : V) (exp : Int)
    (hi : StoreInv s) : StoreInv (storeSet s k v exp) := by
  cases hl : lookupKey s.items k with
  | some e =>
    rw [storeSet_update_eq v exp hl]
    have hk : k ∈ s.order := (hi.1.memIff k).mp (lookupKey_mem_of_some hl)
    have hs' : StoreInv { s with items := updateKey s.items k ⟨v, exp⟩ } := by
      refine ⟨⟨hi.1.orderNodup, ?_, hi.1.sizeEq⟩, hi.2⟩
      intro k'
      show k' ∈ keysOf (updateKey s.items k ⟨v, exp⟩) ↔ k' ∈ s.order
      rw [keysOf_updateKey]
      exact hi.1.memIff k'
    exact storeInv_moveToFront hs' hk
  | none =>
    have hkno : k ∉ s.order :=
      fun h => (lookupKey_eq_none.mp hl) ((hi.1.memIff k).mpr h)
    have hs1 : StoreShape (insertFresh s k v exp) := storeShape_insertFresh hi.1 hkno
    by_cases hc : s.maxSize < s.curSize + 1
    · rw [storeSet_full_fresh s k v exp hl hc]
      have htmem : (k :: s.order).getLast (List.cons_ne_nil _ _) ∈
          (insertFresh s k v exp).order := List.getLast_mem _
      refine ⟨storeShape_removeElement hs1 htmem, ?_⟩
      show s.curSize + 1 - 1 ≤ s.maxSize
      have := hi.2
      omega
    · rw [storeSet_fresh_small_eq v exp hl hc]
      refine ⟨hs1, ?_⟩
      show s.curSize + 1 ≤ s.maxSize
      omega

lemma storeDelete_none_eq {V : Type} {s : StoreState V} {k : String}
    (hl : lookupKey s.items k = none) : storeDelete s k = (s, false) := by
  unfold storeDelete
  rw [hl]

lemma storeDelete_some_eq {V : Type} {s : StoreState V} {k : String}
    {e : EntryS V} (hl : lookupKey s.items k = some e) :
    storeDelete s k = (removeElement s k, true) := by
  unfold storeDelete
  rw [hl]

lemma storeInv_delete {V : Type} (s : StoreState V) (k : String)
    (hi : StoreInv s) : StoreInv (storeDelete s k).1 := by
  cases hl : lookupKey s.items k with
  | none =>
    rw [storeDelete_none_eq hl]
    exact hi
  | some e =>
    rw [storeDelete_some_eq hl]
    have hk : k ∈ s.order := (hi.1.memIff k).mp (lookupKey_mem_of_some hl)
    refine ⟨storeShape_removeElement hi.1 hk, ?_⟩
    show s.curSize - 1 ≤ s.maxSize
    have := hi.2
    omega

lemma storeInv_reset {V : Type} (s : StoreState V) (now : Int) (hi : StoreInv s) :
    StoreInv (storeReset s now) := by
  have h0 : (0 : Int) ≤ s.curSize := by
    rw [hi.1.sizeEq]
    exact Int.natCast_nonneg _
  refine ⟨⟨List.nodup_nil, ?_, rfl⟩, ?_⟩
  · intro k'
    simp [storeReset, keysOf]
  · show (0 : Int) ≤ s.maxSize
    exact le_trans h0 hi.2

lemma storeInv_applyOp {V : Type} (s : StoreState V) (o : StoreOp V)
    (hi : StoreInv s) : StoreInv (applyOp s o) := by
  cases o with
  | get now k => exact storeInv_get s now k hi
  | set k v exp => exact storeInv_set s k v exp hi
  | del k => exact storeInv_delete s k hi
  | reset now => exact storeInv_reset s now hi

lemma storeInv_applyOps {V : Type} (ops : List (StoreOp V)) :
    ∀ s : StoreState V, StoreInv s → StoreInv (applyOps s ops) := by
  induction ops with
  | nil => exact fun _ hi => hi
  | cons o rest ih => exact fun s hi => ih (applyOp s o) (storeInv_applyOp s o hi)

lemma storeInv_newStore (V : Type) (maxSize now : Int) (h0 : 0 ≤ maxSize) :
    StoreInv (newStore V maxSize now) := by
  refine ⟨⟨List.nodup_nil, ?_, rfl⟩, h0⟩
  intro k'
  simp [newStore, keysOf]

lemma erase_getLast_of_nodup (l : List String) (hne : l ≠ []) (hn : l.Nodup) :
    l.erase (l.getLast hne) = l.dropLast := by
  have hsplit : l.dropLast ++ [l.getLast hne] = l := List.dropLast_append_getLast hne
  have hnmem : l.getLast hne ∉ l.dropLast := by
    have hn' : (l.dropLast ++ [l.getLast hne]).Nodup := by
      rw [hsplit]
      exact hn
    have hdis := (List.nodup_append.mp hn').2.2
    intro hmem
    exact hdis hmem (List.mem_singleton_self _)
  calc l.erase (l.getLast hne)
      = (l.dropLast ++ [l.getLast hne]).erase (l.getLast hne) := by rw [hsplit]
    _ = l.dropLast ++ ([l.getLast hne].erase (l.getLast hne)) :=
        List.erase_append_right _ hnmem
    _ = l.dropLast := by rw [List.erase_cons_head, List.append_nil]

/-- Claim C5: starting from a fresh store with a non-negative bound,
after every sequence of Get/Set/Delete/Reset operations the invariant
holds: an entry is in the map iff it is in the list, the list keys are
distinct, `curSize` counts the entries, and the count never exceeds
`maxSize`; moreover, when inserting a fresh key into a full store the
evicted entry is exactly the tail (the least recently used key). -/
theorem storeInv_spec (V : Type) (maxSize now : Int) (h0 : 0 ≤ maxSize)
    (ops : List (StoreOp V)) :
    StoreInv (applyOps (newStore V maxSize now) ops) ∧
    (∀ (s : StoreState V) (k : String) (v : V) (exp : Int) (hne : s.order ≠ []),
      StoreInv s → lookupKey s.items k = none → s.maxSize < s.curSize + 1 →
      (storeSet s k v exp).order = k :: s.order.dropLast ∧
      lookupKey (storeSet s k v exp).items (s.order.getLast hne) = none) := by
  constructor
  · exact storeInv_applyOps ops _ (storeInv_newStore V maxSize now h0)
  · intro s k v exp hne hi hl hc
    have ht : (k :: s.order).getLast (List.cons_ne_nil _ _) =
        s.order.getLast hne := List.getLast_cons hne
    have hkno : k ∉ s.order :=
      fun h => (lookupKey_eq_none.mp hl) ((hi.1.memIff k).mpr h)
    have htk : k ≠ s.order.getLast hne := by
      intro heq
      exact hkno (heq ▸ List.getLast_mem hne)
    rw [storeSet_full_fresh s k v exp hl hc]
    constructor
    · show (k :: s.order).erase ((k :: s.order).getLast (List.cons_ne_nil _ _)) =
        k :: s.order.dropLast
      rw [ht, List.erase_cons_tail (by simp [htk]),
        erase_getLast_of_nodup s.order hne hi.1.orderNodup]
    · simp only [removeElement, insertFresh]
      rw [ht]
      exact lookupKey_eraseKey_self _ _

/-- Witness for C5: a capacity-2 store driven through five operations
satisfies the invariant. -/
theorem storeInv_spec_witness :
    StoreInv (applyOps (newStore Nat 2 0)
      [.set "a" 1 0, .set "b" 2 0, .set "c" 3 0, .get 1 "a", .del "b"]) :=
  (storeInv_spec Nat 2 0 (by decide)
    [.set "a" 1 0, .set "b" 2 0, .set "c" 3 0, .get 1 "a", .del "b"]).1

/-! KeyedMutex.  Embedding of the registry bookkeeping of `KeyedMutex`
(paired `Lock`/`Unlock` with per-key reference counting and entry
pooling).  The registry map is an association list from key to the
entry's `refs` counter; the free pool is the stack of the pooled
entries' `refs` values.  The inner `sync.Mutex` acquisition itself is a
blocking concurrency primitive outside the embedding; the claims are
about the registry/refs/pool bookkeeping, which is modelled exactly. -/

/-- Go map lookup in the registry (`k.m[key]`), returning the entry's
reference count. -/
def findRefs : List (String × Int) → String → Option Int
  | [], _ => none
  | kv :: rest, k => if kv.1 = k then some kv.2 else findRefs rest k

/-- Increment of the found entry's `refs` (`e.refs++`). -/
def incRefs : List (String × Int) → String → List (String × Int)
  | [], _ => []
  | kv :: rest, k =>
      if kv.1 = k then (kv.1, kv.2 + 1) :: rest else kv :: incRefs rest k

/-- Decrement of the found entry's `refs` (`e.refs--`). -/
def decRefs : List (String × Int) → String → List (String × Int)
  | [], _ => []
  | kv :: rest, k =>
      if kv.1 = k then (kv.1, kv.2 - 1) :: rest else kv :: decRefs rest k

/-- Go map removal from the registry (`delete(k.m, key)`). -/
def delKey : List (String × Int) → String → List (String × Int)
  | [], _ => []
  | kv :: rest, k => if kv.1 = k then rest else kv :: delKey rest k

/-- Registry state of a `KeyedMutex`. -/
structure KeyedMutex where
  m : List (String × Int)
  pool : List Int
deriving DecidableEq, Repr

/-- Embedding of `NewMutex`. -/
def newMutex : KeyedMutex := { m := [], pool := [] }

/-- Embedding of `Lock` (registry bookkeeping): an absent key takes an
entry from the pool (or allocates), sets `refs = 1` and inserts it; a
present key increments `refs`. -/
def kmLock (km : KeyedMutex) (key : String) : KeyedMutex :=
  match findRefs km.m key with
  | some _ => { km with m := incRefs km.m key }
  | none =>
    match km.pool with
    | [] => { km with m := (key, 1) :: km.m }
    | _ :: rest => { m := (key, 1) :: km.m, pool := rest }

/-- Failure of `Unlock` on a key absent from the registry. -/
inductive UnlockFault where
  | unlockOfUnlocked
deriving DecidableEq, Repr

/-- Embedding of `Unlock`: an absent key fails with UnlockOfUnlocked;
otherwise `refs` is decremented and, when it drops to zero or below, the
entry is deleted from the map, its `refs` is reset to 0, and it is
returned to the free pool. -/
def kmUnlock (km : KeyedMutex) (key : String) : Except UnlockFault KeyedMutex :=
  match findRefs km.m key with
  | none => .error .unlockOfUnlocked
  | some r =>
    if r - 1 ≤ 0 then
      .ok { m := delKey km.m key, pool := 0 :: km.pool }
    else
      .ok { km with m := decRefs km.m key }

/-- One Lock or Unlock call. -/
inductive KmOp where
  | lock (key : String)
  | unlock (key : String)

/-- Applies one call; a failed Unlock leaves the registry unchanged, as
the early return does. -/
def kmApply (km : KeyedMutex) : KmOp → KeyedMutex
  | .lock key => kmLock km key
  | .unlock key =>
    match kmUnlock km key with
    | .ok km2 => km2
    | .error _ => km

/-- Applies a sequence of calls in order. -/
def kmApplyAll (km : KeyedMutex) (ops : List KmOp) : KeyedMutex :=
  ops.foldl kmApply km

/-- KeyedMutex invariant: every registry entry has `refs > 0`, every
pooled entry has `refs = 0`, and registry keys are distinct. -/
def KMInv (km : KeyedMutex) : Prop :=
  (∀ kv ∈ km.m, 0 < kv.2) ∧ (∀ r ∈ km.pool, r = 0) ∧ (km.m.map Prod.fst).Nodup

lemma findRefs_eq_none {m : List (String × Int)} {k : String} :
    findRefs m k = none ↔ k ∉ m.map Prod.fst := by
  induction m with
  | nil => simp [findRefs]
  | cons kv rest ih =>
    rw [List.map_cons, List.mem_cons]
    by_cases hk : kv.1 = k
    · rw [findRefs, if_pos hk]
      simp [hk.symm]
    · rw [findRefs, if_neg hk, ih]
      have hne : ¬ k = kv.1 := fun h => hk h.symm
      simp [hne]

lemma mem_decRefs {m : List (String × Int)} {k : String} {r : Int}
    (hf : findRefs m k = some r) :
    ∀ kv ∈ decRefs m k, kv = (k, r - 1) ∨ kv ∈ m := by
  induction m with
  | nil => cases hf
  | cons kv0 rest ih =>
    by_cases hk : kv0.1 = k
    · rw [findRefs, if_pos hk] at hf
      rw [decRefs, if_pos hk]
      intro kv hkv
      rcases List.mem_cons.mp hkv with h | h
      · left
        rw [h, hk, Option.some.inj hf]
      · right
        exact List.mem_cons_of_mem _ h
    · rw [findRefs, if_neg hk] at hf
      rw [decRefs, if_neg hk]
      intro kv hkv
      rcases List.mem_cons.mp hkv with h | h
      · right
        rw [h]
        exact List.mem_cons_self _ _
      · rcases ih hf kv h with h1 | h1
        · exact Or.inl h1
        · exact Or.inr (List.mem_cons_of_mem _ h1)

lemma mem_incRefs {m : List (String × Int)} {k : String} {r : Int}
    (hf : findRefs m k = some r) :
    ∀ kv ∈ incRefs m k, kv = (k, r + 1) ∨ kv ∈ m := by
  induction m with
  | nil => cases hf
  | cons kv0 rest ih =>
    by_cases hk : kv0.1 = k
    · rw [findRefs, if_pos hk] at hf
      rw [incRefs, if_pos hk]
      intro kv hkv
      rcases List.mem_cons.mp hkv with h | h
      · left
        rw [h, hk, Option.some.inj hf]
      · right
        exact List.mem_cons_of_mem _ h
    · rw [findRefs, if_neg hk] at hf
      rw [incRefs, if_neg hk]
      intro kv hkv
      rcases List.mem_cons.mp hkv with h | h
      · right
        rw [h]
        exact List.mem_cons_self _ _
      · rcases ih hf kv h with h1 | h1
        · exact Or.inl h1
        · exact Or.inr (List.mem_cons_of_mem _ h1)

lemma findRefs_pos {m : List (String × Int)} {k : String} {r : Int}
    (hpos : ∀ kv ∈ m, 0 < kv.2) (hf : findRefs m k = some r) : 0 < r := by
  induction m with
  | nil => cases hf
  | cons kv0 rest ih =>
    by_cases hk : kv0.1 = k
    · rw [findRefs, if_pos hk] at hf
      rw [← Option.some.inj hf]
      exact hpos kv0 (List.mem_cons_self _ _)
    · rw [findRefs, if_neg hk] at hf
      exact ih (fun kv h => hpos kv (List.mem_cons_of_mem _ h)) hf

lemma keys_decRefs (m : List (String × Int)) (k : String) :
    (decRefs m k).map Prod.fst = m.map Prod.fst := by
  induction m with
  | nil => rfl
  | cons kv rest ih =>
    by_cases hk : kv.1 = k
    · rw [decRefs, if_pos hk]
      simp
    · rw [decRefs, if_neg hk, List.map_cons, List.map_cons, ih]

lemma keys_incRefs (m : List (String × Int)) (k : String) :
    (incRefs m k).map Prod.fst = m.map Prod.fst := by
  induction m with
  | nil => rfl
  | cons kv rest ih =>
    by_cases hk : kv.1 = k
    · rw [incRefs, if_pos hk]
      simp
    · rw [incRefs, if_neg hk, List.map_cons, List.map_cons, ih]

lemma keys_delKey (m : List (String × Int)) (k : String) :
    (delKey m k).map Prod.fst = (m.map Prod.fst).erase k := by
  induction m with
  | nil => rfl
  | cons kv rest ih =>
    by_cases hk : kv.1 = k
    · rw [delKey, if_pos hk, List.map_cons, hk, List.erase_cons_head]
    · rw [delKey, if_neg hk, List.map_cons, List.map_cons,
        List.erase_cons_tail (by simp [hk]), ih]

lemma mem_delKey {m : List (String × Int)} {k : String} :
    ∀ kv ∈ delKey m k, kv ∈ m := by
  induction m with
  | nil => intro kv h; cases h
  | cons kv0 rest ih =>
    intro kv hkv
    by_cases hk : kv0.1 = k
    · rw [delKey, if_pos hk] at hkv
      exact List.mem_cons_of_mem _ hkv
    · rw [delKey, if_neg hk] at hkv
      rcases List.mem_cons.mp hkv with h | h
      · rw [h]
        exact List.mem_cons_self _ _
      · exact List.mem_cons_of_mem _ (ih kv h)

lemma findRefs_decRefs_self {m : List (String × Int)} {k : String} {r : Int}
    (hf : findRefs m k = some r) : findRefs (decRefs m k) k = some (r - 1) := by
  induction m with
  | nil => cases hf
  | cons kv rest ih =>
    by_cases hk : kv.1 = k
    · rw [findRefs, if_pos hk] at hf
      rw [decRefs, if_pos hk, findRefs, if_pos hk, Option.some.inj hf]
    · rw [findRefs, if_neg hk] at hf
      rw [decRefs, if_neg hk, findRefs, if_neg hk, ih hf]

lemma kmInv_lock {km : KeyedMutex} (key : String) (hi : KMInv km) :
    KMInv (kmLock km key) := by
  obtain ⟨hpos, hpool, hnd⟩ := hi
  cases hf : findRefs km.m key with
  | some r =>
    have hred : kmLock km key = { km with m := incRefs km.m key } := by
      unfold kmLock
      rw [hf]
    rw [hred]
    refine ⟨?_, hpool, ?_⟩
    · intro kv hkv
      rcases mem_incRefs hf kv hkv with h | h
      · rw [h]
        have := findRefs_pos hpos hf
        simp only
        omega
      · exact hpos kv h
    · show ((incRefs km.m key).map Prod.fst).Nodup
      rw [keys_incRefs]
      exact hnd
  | none =>
    have hkno : key ∉ km.m.map Prod.fst := findRefs_eq_none.mp hf
    cases hp : km.pool with
    | nil =>
      have hred : kmLock km key = { km with m := (key, 1) :: km.m } := by
        unfold kmLock
        rw [hf, hp]
      rw [hred]
      refine ⟨?_, hpool, ?_⟩
      · intro kv hkv
        rcases List.mem_cons.mp hkv with h | h
        · rw [h]
          exact zero_lt_one
        · exact hpos kv h
      · show ((key, (1 : Int)) :: km.m).map Prod.fst |>.Nodup
        rw [List.map_cons]
        exact List.nodup_cons.mpr ⟨hkno, hnd⟩
    | cons r0 rest =>
      have hred : kmLock km key = { m := (key, 1) :: km.m, pool := rest } := by
        unfold kmLock
        rw [hf, hp]
      rw [hred]
      refine ⟨?_, ?_, ?_⟩
      · intro kv hkv
        rcases List.mem_cons.mp hkv with h | h
        · rw [h]
          exact zero_lt_one
        · exact hpos kv h
      · intro r hr
        exact hpool r (by rw [hp]; exact List.mem_cons_of_mem _ hr)
      · show ((key, (1 : Int)) :: km.m).map Prod.fst |>.Nodup
        rw [List.map_cons]
        exact List.nodup_cons.mpr ⟨hkno, hnd⟩

lemma kmUnlock_none_eq {km : KeyedMutex} {key : String}
    (hf : findRefs km.m key = none) :
    kmUnlock km key = .error .unlockOfUnlocked := by
  unfold kmUnlock
  rw [hf]

lemma kmUnlock_del_eq {km : KeyedMutex} {key : String} {r : Int}
    (hf : findRefs km.m key = some r) (hr : r - 1 ≤ 0) :
    kmUnlock km key = .ok { m := delKey km.m key, pool := 0 :: km.pool } := by
  unfold kmUnlock
  rw [hf]
  show (if r - 1 ≤ 0 then
      Except.ok { m := delKey km.m key, pool := 0 :: km.pool }
    else Except.ok { km with m := decRefs km.m key } :
      Except UnlockFault KeyedMutex) = _
  rw [if_pos hr]

lemma kmUnlock_dec_eq {km : KeyedMutex} {key : String} {r : Int}
    (hf : findRefs km.m key = some r) (hr : ¬ r - 1 ≤ 0) :
    kmUnlock km key = .ok { km with m := decRefs km.m key } := by
  unfold kmUnlock
  rw [hf]
  show (if r - 1 ≤ 0 then
      Except.ok { m := delKey km.m key, pool := 0 :: km.pool }
    else Except.ok { km with m := decRefs km.m key } :
      Except UnlockFault KeyedMutex) = _
  rw [if_neg hr]

lemma kmApply_unlock_eq (km : KeyedMutex) (key : String) :
    kmApply km (.unlock key) =
      match kmUnlock km key with
      | .ok km2 => km2
      | .error _ => km := rfl

lemma kmInv_unlock {km : KeyedMutex} (key : String) (hi : KMInv km) :
    KMInv (kmApply km (.unlock key)) := by
  obtain ⟨hpos, hpool, hnd⟩ := hi
  cases hf : findRefs km.m key with
  | none =>
    rw [kmApply_unlock_eq, kmUnlock_none_eq hf]
    exact ⟨hpos, hpool, hnd⟩
  | some r =>
    by_cases hr : r - 1 ≤ 0
    · rw [kmApply_unlock_eq, kmUnlock_del_eq hf hr]
      refine ⟨?_, ?_, ?_⟩
      · intro kv hkv
        exact hpos kv (mem_delKey kv hkv)
      · intro x hx
        rcases List.mem_cons.mp hx with h | h
        · exact h
        · exact hpool x h
      · show ((delKey km.m key).map Prod.fst).Nodup
        rw [keys_delKey]
        exact hnd.erase key
    · rw [kmApply_unlock_eq, kmUnlock_dec_eq hf hr]
      refine ⟨?_, hpool, ?_⟩
      · intro kv hkv
        rcases mem_decRefs hf kv hkv with h | h
        · rw [h]
          simp only
          omega
        · exact hpos kv h
      · show ((decRefs km.m key).map Prod.fst).Nodup
        rw [keys_decRefs]
        exact hnd

lemma kmInv_apply (km : KeyedMutex) (o : KmOp) (hi : KMInv km) :
    KMInv (kmApply km o) := by
  cases o with
  | lock key => exact kmInv_lock key hi
  | unlock key => exact kmInv_unlock key hi

lemma kmInv_applyAll (ops : List KmOp) :
    ∀ km : KeyedMutex, KMInv km → KMInv (kmApplyAll km ops) := by
  induction ops with
  | nil => exact fun _ hi => hi
  | cons o rest ih => exact fun km hi => ih (kmApply km o) (kmInv_apply km o hi)

/-- Claim C8: `Unlock` on an absent key fails with UnlockOfUnlocked and
leaves the registry unchanged; on a present key it decrements `refs` and
removes the entry, resets its `refs` to 0 and returns it to the free
pool exactly when `refs ≤ 0` after the decrement (otherwise the entry
stays with the decremented count); and across every sequence of
Lock/Unlock calls from a fresh mutex, registry entries always have
`refs > 0` while pooled entries have `refs = 0` (refs > 0 iff the entry
is in the registry map). -/
theorem kmUnlock_spec :
    (∀ (km : KeyedMutex) (key : String), findRefs km.m key = none →
      kmUnlock km key = .error .unlockOfUnlocked) ∧
    (∀ (km : KeyedMutex) (key : String) (r : Int), findRefs km.m key = some r →
      (r - 1 ≤ 0 →
        kmUnlock km key = .ok { m := delKey km.m key, pool := 0 :: km.pool } ∧
        (KMInv km → findRefs (delKey km.m key) key = none)) ∧
      (¬ r - 1 ≤ 0 →
        kmUnlock km key = .ok { km with m := decRefs km.m key } ∧
        findRefs (decRefs km.m key) key = some (r - 1))) ∧
    (∀ ops : List KmOp, KMInv (kmApplyAll newMutex ops)) := by
  refine ⟨?_, ?_, ?_⟩
  · intro km key hf
    exact kmUnlock_none_eq hf
  · intro km key r hf
    constructor
    · intro hr
      refine ⟨kmUnlock_del_eq hf hr, ?_⟩
      intro hi
      rw [findRefs_eq_none, keys_delKey]
      exact hi.2.2.not_mem_erase
    · intro hr
      exact ⟨kmUnlock_dec_eq hf hr, findRefs_decRefs_self hf⟩
  · intro ops
    exact kmInv_applyAll ops newMutex
      ⟨fun kv h => absurd h (List.not_mem_nil kv),
       fun r h => absurd h (List.not_mem_nil r), List.nodup_nil⟩

/-- Witness for C8: unlocking a fresh mutex fails with UnlockOfUnlocked,
and unlocking a singly-locked key removes it. -/
theorem kmUnlock_spec_witness :
    kmUnlock newMutex "x" = .error .unlockOfUnlocked ∧
    kmUnlock { m := [("x", 1)], pool := [] } "x" =
      .ok { m := [], pool := [0] } :=
  ⟨kmUnlock_spec.1 newMutex "x" rfl,
   ((kmUnlock_spec.2.1 { m := [("x", 1)], pool := [] } "x" 1 rfl).1 (by decide)).1⟩

/-! Stop channel of the LRU store's background sweeper (`Stop`/`Close`
in `in_memory_storage.go`).  Closing a Go channel that is already closed
panics; the channel is modelled by its closed flag and `close` by a
fallible transition. -/

/-- Runtime fault raised by `close` on an already-closed channel. -/
inductive GoFault where
  | closeOfClosedChannel
deriving DecidableEq, Repr

/-- The `stopCh` channel, abstracted to whether it has been closed. -/
structure SweeperChannel where
  closed : Bool
deriving DecidableEq, Repr

/-- Go `close(ch)`: marks an open channel closed and panics on a closed
one. -/
def closeChan (ch : SweeperChannel) : Except GoFault SweeperChannel :=
  if ch.closed then .error .closeOfClosedChannel else .ok { closed := true }

/-- Embedding of `InMemoryStorage.Stop`: `close(s.stopCh)`,
unconditionally. -/
def storeStop (ch : SweeperChannel) : Except GoFault SweeperChannel := closeChan ch

/-- Embedding of `InMemoryStorage.Close`, which only calls `Stop`. -/
def storeClose (ch : SweeperChannel) : Except GoFault SweeperChannel := storeStop ch

/-- Counterexample to claim C9: the first Stop closes the channel and a
second Stop/Close reaches the close-of-closed-channel panic, so stopping
the sweeper twice does fault — the panic branch is reachable. -/
theorem storeStop_counterexample :
    storeStop { closed := false } = .ok { closed := true } ∧
    storeClose { closed := true } = .error .closeOfClosedChannel :=
  ⟨rfl, rfl⟩

/-- Amended claim C9: `Stop` (and `Close`, which merely delegates to it)
closes the stop channel unconditionally; it is safe exactly once, and a
second call after the channel has been closed panics with
close-of-closed-channel — the operation is not idempotent. -/
theorem storeStop_amended :
    (∀ ch : SweeperChannel, ch.closed = false →
      storeStop ch = .ok { closed := true }) ∧
    (∀ ch : SweeperChannel, ch.closed = true →
      storeStop ch = .error .closeOfClosedChannel ∧
      storeClose ch = .error .closeOfClosedChannel) := by
  constructor
  · intro ch h
    simp [storeStop, closeChan, h]
  · intro ch h
    constructor <;> simp [storeStop, storeClose, closeChan, h]

/-- Witness for the amended C9: a concrete double stop. -/
theorem storeStop_amended_witness :
    storeStop { closed := false } = .ok { closed := true } ∧
    storeStop { closed := true } = .error .closeOfClosedChannel :=
  ⟨storeStop_amended.1 { closed := false } rfl,
   (storeStop_amended.2 { closed := true } rfl).1⟩

/-! Request orchestrator (`Query` / `externalQuery` / `internalQuery`).
The driver, the L2 store, the codec and the caller's row handler are
external collaborators; their answers for one call are oracle inputs in
an `Env` record, and every cache, lock and database interaction the call
performs is recorded in an event trace, in program order. -/

/-- Model of a Go `error` from a driver operation: a `*mysql.MySQLError`
with its code, SQL state and message; the `context.DeadlineExceeded`
value; or any other error value. -/
inductive GoErr where
  | mysqlErr (number : Nat) (sqlState : List Nat) (message : String)
  | deadlineExceeded
  | otherErr
deriving DecidableEq, Repr

/-- The application error struct `MySQLError`; the zero value of the Go
`[5]byte` SQL state is five zero bytes and of `string` is "". -/
structure MySQLError where
  number : Nat
  sqlState : List Nat := [0, 0, 0, 0, 0]
  message : String := ""
deriving DecidableEq, Repr

/-- Observable side effects of one `Query` call. -/
inductive Event where
  | memGet (key : String)
  | memSet (key : String)
  | extGet (key : String)
  | extSet (key : String)
  | mutexLock (key : String)
  | mutexUnlock (key : String)
  | stmtFetch (query : String)
  | stmtExec (query : String)
  | handlerRun
deriving DecidableEq, Repr

/-- Oracle answers of the collaborators during one call returning `T`:
the L1 probe result after the `val.(*T)` type assertion (a miss, a Get
error or a type mismatch are all `none`), the two L2 probe results, the
keyed-mutex Lock outcome, the statement preparation and execution
outcomes, the row handler's result pair, and whether `Marshal`
succeeds. -/
structure Env (T : Type) where
  l1Hit : Option T
  l2Hit1 : Option T
  lockOk : Bool
  l2Hit2 : Option T
  prepare : Except GoErr Unit
  exec : Except GoErr Unit
  clbRes : Option T
  clbErr : Option MySQLError
  marshalOk : Bool

/-- Result pair of `Query`: the typed result and the application
error. -/
abbrev QueryRes (T : Type) := Option T × Option MySQLError

/-- Error conversion after a failed `getPreparedStatement` (part_014
lines 140-151): a driver error is propagated verbatim, anything else is
the generic zero error. -/
def prepareErrToMySQL : GoErr → MySQLError
  | .mysqlErr n st msg => { number := n, sqlState := st, message := msg }
  | .deadlineExceeded => { number := 0 }
  | .otherErr => { number := 0 }

/-- Error conversion after a failed `QueryContext` (part_014 lines
154-175): driver error 1213 becomes { 45000, "DEADLOCK" },
deadline-exceeded becomes { 45000, "TIMEOUT" }, any other driver error
is propagated verbatim, anything else is the generic zero error. -/
def execErrToMySQL : GoErr → MySQLError
  | .mysqlErr n st msg =>
      if n = 1213 then { number := 45000, message := "DEADLOCK" }
      else { number := n, sqlState := st, message := msg }
  | .deadlineExceeded => { number := 45000, message := "TIMEOUT" }
  | .otherErr => { number := 0 }

/-- Cache key of the external path (part_014 lines 80-88): computed only
when caching is enabled and some TTL is positive, from the override or
`CreateKey`; the Go `var key string` otherwise stays "". -/
def externalKey (c : Conn) (p : ParamsM) : String :=
  if c.cacheEnabled ∧ (0 < p.nodeCacheDelay ∨ 0 < p.cacheDelay) then
    (if p.key = "" then CreateKey p (some c) else p.key)
  else ""

/-- Cache key of the internal path (part_014 lines 224-228 and the
recomputation at lines 281-287). -/
def internalKey (c : Conn) (p : ParamsM) : String :=
  if p.key = "" then CreateKey p (some c) else p.key

/-- Lines 133-207 of `externalQuery`: statement fetch, execution, row
handling, and population of L2 (and of L1 when `l1_ttl > 0`) on handler
success, with the Marshal-failure SERIALIZE error. -/
def dbFetchExternal {T : Type} (c : Conn) (p : ParamsM) (env : Env T)
    (query key : String) : QueryRes T × List Event :=
  match env.prepare with
  | .error e => ((none, some (prepareErrToMySQL e)), [.stmtFetch query])
  | .ok _ =>
    match env.exec with
    | .error e =>
        ((none, some (execErrToMySQL e)), [.stmtFetch query, .stmtExec query])
    | .ok _ =>
      match env.clbRes, env.clbErr with
      | some r, none =>
        if 0 < p.cacheDelay ∧ c.cacheEnabled then
          if env.marshalOk then
            ((some r, none),
             [.stmtFetch query, .stmtExec query, .handlerRun, .extSet key] ++
               (if 0 < p.nodeCacheDelay then [.memSet key] else []))
          else
            ((some r, some { number := 45000, message := "SERIALIZE" }),
             [.stmtFetch query, .stmtExec query, .handlerRun])
        else ((some r, none), [.stmtFetch query, .stmtExec query, .handlerRun])
      | cr, ce => ((cr, ce), [.stmtFetch query, .stmtExec query, .handlerRun])

/-- Lines 101-131 of `externalQuery`: the optimistic L2 probe (warming
L1 on a hit), the stampede lock under "mutex_" + key with the abandoned
(nil, nil) return when Lock fails, the double-check after the lock, and
the fall-through to the database fetch; the deferred Unlock runs at
function exit on every path after a successful Lock. -/
def externalL2Phase {T : Type} (c : Conn) (p : ParamsM) (env : Env T)
    (query key : String) : QueryRes T × List Event :=
  if 0 < p.cacheDelay ∧ c.cacheEnabled then
    match env.l2Hit1 with
    | some res =>
      ((some res, none),
       .extGet key :: (if 0 < p.nodeCacheDelay then [.memSet key] else []))
    | none =>
      if env.lockOk then
        match env.l2Hit2 with
        | some res =>
          ((some res, none),
           [.extGet key, .mutexLock ("mutex_" ++ key), .extGet key] ++
             (if 0 < p.nodeCacheDelay then [.memSet key] else []) ++
             [.mutexUnlock ("mutex_" ++ key)])
        | none =>
          ((dbFetchExternal c p env query key).1,
           [.extGet key, .mutexLock ("mutex_" ++ key), .extGet key] ++
             (dbFetchExternal c p env query key).2 ++
             [.mutexUnlock ("mutex_" ++ key)])
      else ((none, none), [.extGet key, .mutexLock ("mutex_" ++ key)])
  else dbFetchExternal c p env query key

/-- Embedding of `externalQuery` (part_014 lines 70-209): the L1 probe
when `l1_ttl > 0` and caching is enabled, then the L2 phase. -/
def externalQuery {T : Type} (c : Conn) (p : ParamsM) (env : Env T) :
    QueryRes T × List Event :=
  if 0 < p.nodeCacheDelay ∧ c.cacheEnabled then
    match env.l1Hit with
    | some res => ((some res, none), [.memGet (externalKey c p)])
    | none =>
      ((externalL2Phase c p env (generateQuery p) (externalKey c p)).1,
       .memGet (externalKey c p) ::
         (externalL2Phase c p env (generateQuery p) (externalKey c p)).2)
  else externalL2Phase c p env (generateQuery p) (externalKey c p)

/-- Lines 237-291 of `internalQuery`: statement fetch, execution, row
handling, and L1 population under `params.CacheDelay > 0` (with the
defensive key recomputation when the key is still empty). -/
def dbFetchInternal {T : Type} (c : Conn) (p : ParamsM) (env : Env T)
    (query key : String) : QueryRes T × List Event :=
  match env.prepare with
  | .error e => ((none, some (prepareErrToMySQL e)), [.stmtFetch query])
  | .ok _ =>
    match env.exec with
    | .error e =>
        ((none, some (execErrToMySQL e)), [.stmtFetch query, .stmtExec query])
    | .ok _ =>
      match env.clbRes, env.clbErr with
      | some r, none =>
        if 0 < p.cacheDelay then
          ((some r, none),
           [.stmtFetch query, .stmtExec query, .handlerRun,
            .memSet (if key = "" then internalKey c p else key)])
        else ((some r, none), [.stmtFetch query, .stmtExec query, .handlerRun])
      | cr, ce => ((cr, ce), [.stmtFetch query, .stmtExec query, .handlerRun])

/-- Embedding of `internalQuery` (part_014 lines 213-292): the L1 probe
is guarded only by `params.CacheDelay > 0` — the `CacheEnabled` flag is
not consulted on this path. -/
def internalQuery {T : Type} (c : Conn) (p : ParamsM) (env : Env T) :
    QueryRes T × List Event :=
  if 0 < p.cacheDelay then
    match env.l1Hit with
    | some res => ((some res, none), [.memGet (internalKey c p)])
    | none =>
      ((dbFetchInternal c p env (generateQuery p) (internalKey c p)).1,
       .memGet (internalKey c p) ::
         (dbFetchInternal c p env (generateQuery p) (internalKey c p)).2)
  else dbFetchInternal c p env (generateQuery p) ""

/-- Embedding of `Query` (part_014 lines 51-64): route to the internal
path when no external cache is configured, else to the external path. -/
def Query {T : Type} (c : Conn) (p : ParamsM) (env : Env T) :
    QueryRes T × List Event :=
  if c.hasL2 then externalQuery c p env else internalQuery c p env

lemma dbFetchExternal_events {T : Type} (c : Conn) (p : ParamsM) (env : Env T)
    (query key : String) :
    ∀ ev ∈ (dbFetchExternal c p env query key).2,
      ev = .stmtFetch query ∨ ev = .stmtExec query ∨ ev = .handlerRun ∨
      (ev = .extSet key ∧ 0 < p.cacheDelay ∧ c.cacheEnabled = true) ∨
      (ev = .memSet key ∧ 0 < p.nodeCacheDelay ∧ 0 < p.cacheDelay ∧
        c.cacheEnabled = true) := by
  intro ev hev
  unfold dbFetchExternal at hev
  rcases hp : env.prepare with e | u
  · rw [hp] at hev
    simp only [List.mem_singleton] at hev
    exact Or.inl hev
  · rw [hp] at hev
    rcases hx : env.exec with e | u2
    · rw [hx] at hev
      simp only [List.mem_cons, List.not_mem_nil, or_false] at hev
      tauto
    · rw [hx] at hev
      rcases hr : env.clbRes with _ | r <;> rcases he : env.clbErr with _ | er <;>
        rw [hr, he] at hev
      · simp only [List.mem_cons, List.not_mem_nil, or_false] at hev
        tauto
      · simp only [List.mem_cons, List.not_mem_nil, or_false] at hev
        tauto
      · dsimp only at hev
        by_cases hc : 0 < p.cacheDelay ∧ c.cacheEnabled = true
        · rw [if_pos hc] at hev
          by_cases hm : env.marshalOk
          · rw [if_pos hm] at hev
            by_cases hn : 0 < p.nodeCacheDelay
            · rw [if_pos hn] at hev
              simp only [List.mem_append, List.mem_cons, List.not_mem_nil,
                or_false] at hev
              rcases hev with (h | h | h | h) | h
              · exact Or.inl h
              · exact Or.inr (Or.inl h)
              · exact Or.inr (Or.inr (Or.inl h))
              · exact Or.inr (Or.inr (Or.inr (Or.inl ⟨h, hc.1, hc.2⟩)))
              · exact Or.inr (Or.inr (Or.inr (Or.inr ⟨h, hn, hc.1, hc.2⟩)))
            · rw [if_neg hn] at hev
              simp only [List.mem_append, List.mem_cons, List.not_mem_nil,
                or_false] at hev
              rcases hev with h | h | h | h
              · exact Or.inl h
              · exact Or.inr (Or.inl h)
              · exact Or.inr (Or.inr (Or.inl h))
              · exact Or.inr (Or.inr (Or.inr (Or.inl ⟨h, hc.1, hc.2⟩)))
          · rw [if_neg hm] at hev
            simp only [List.mem_cons, List.not_mem_nil, or_false] at hev
            tauto
        · rw [if_neg hc] at hev
          simp only [List.mem_cons, List.not_mem_nil, or_false] at hev
          tauto
      · simp only [List.mem_cons, List.not_mem_nil, or_false] at hev
        tauto

lemma externalL2Phase_events {T : Type} (c : Conn) (p : ParamsM) (env : Env T)
    (query key : String) :
    ∀ ev ∈ (externalL2Phase c p env query key).2,
      ev = .stmtFetch query ∨ ev = .stmtExec query ∨ ev = .handlerRun ∨
      ((ev = .extGet key ∨ ev = .extSet key ∨
        ev = .mutexLock ("mutex_" ++ key) ∨ ev = .mutexUnlock ("mutex_" ++ key)) ∧
        0 < p.cacheDelay ∧ c.cacheEnabled = true) ∨
      (ev = .memSet key ∧ 0 < p.nodeCacheDelay ∧ 0 < p.cacheDelay ∧
        c.cacheEnabled = true) := by
  intro ev hev
  unfold externalL2Phase at hev
  by_cases hc : 0 < p.cacheDelay ∧ c.cacheEnabled = true
  · rw [if_pos hc] at hev
    rcases hm1 : env.l2Hit1 with _ | res
    · rw [hm1] at hev
      dsimp only at hev
      by_cases hlk : env.lockOk = true
      · rw [hlk, if_pos rfl] at hev
        rcases hm2 : env.l2Hit2 with _ | res2
        · rw [hm2] at hev
          simp only [List.mem_append, List.mem_cons, List.not_mem_nil,
            or_false] at hev
          rcases hev with ((h | h | h) | h) | h
          · exact Or.inr (Or.inr (Or.inr (Or.inl ⟨Or.inl h, hc⟩)))
          · exact Or.inr (Or.inr (Or.inr (Or.inl ⟨Or.inr (Or.inr (Or.inl h)), hc⟩)))
          · exact Or.inr (Or.inr (Or.inr (Or.inl ⟨Or.inl h, hc⟩)))
          · rcases dbFetchExternal_events c p env query key ev h with
              h1 | h1 | h1 | h1 | h1
            · exact Or.inl h1
            · exact Or.inr (Or.inl h1)
            · exact Or.inr (Or.inr (Or.inl h1))
            · exact Or.inr (Or.inr (Or.inr (Or.inl ⟨Or.inr (Or.inl h1.1), h1.2⟩)))
            · exact Or.inr (Or.inr (Or.inr (Or.inr h1)))
          · exact Or.inr (Or.inr (Or.inr (Or.inl
              ⟨Or.inr (Or.inr (Or.inr h)), hc⟩)))
        · rw [hm2] at hev
          dsimp only at hev
          by_cases hn : 0 < p.nodeCacheDelay
          · rw [if_pos hn] at hev
            simp only [List.mem_append, List.mem_cons, List.not_mem_nil,
              or_false] at hev
            rcases hev with ((h | h | h) | h) | h
            · exact Or.inr (Or.inr (Or.inr (Or.inl ⟨Or.inl h, hc⟩)))
            · exact Or.inr (Or.inr (Or.inr (Or.inl
                ⟨Or.inr (Or.inr (Or.inl h)), hc⟩)))
            · exact Or.inr (Or.inr (Or.inr (Or.inl ⟨Or.inl h, hc⟩)))
            · exact Or.inr (Or.inr (Or.inr (Or.inr ⟨h, hn, hc.1, hc.2⟩)))
            · exact Or.inr (Or.inr (Or.inr (Or.inl
                ⟨Or.inr (Or.inr (Or.inr h)), hc⟩)))
          · rw [if_neg hn] at hev
            simp only [List.mem_append, List.mem_cons, List.not_mem_nil,
              or_false] at hev
            rcases hev with (h | h | h) | h
            · exact Or.inr (Or.inr (Or.inr (Or.inl ⟨Or.inl h, hc⟩)))
            · exact Or.inr (Or.inr (Or.inr (Or.inl
                ⟨Or.inr (Or.inr (Or.inl h)), hc⟩)))
            · exact Or.inr (Or.inr (Or.inr (Or.inl ⟨Or.inl h, hc⟩)))
            · exact Or.inr (Or.inr (Or.inr (Or.inl
                ⟨Or.inr (Or.inr (Or.inr h)), hc⟩)))
      · rw [Bool.not_eq_true] at hlk
        rw [hlk] at hev
        simp only [Bool.false_eq_true, if_false, List.mem_cons,
          List.not_mem_nil, or_false] at hev
        rcases hev with h | h
        · exact Or.inr (Or.inr (Or.inr (Or.inl ⟨Or.inl h, hc⟩)))
        · exact Or.inr (Or.inr (Or.inr (Or.inl
            ⟨Or.inr (Or.inr (Or.inl h)), hc⟩)))
    · rw [hm1] at hev
      dsimp only at hev
      by_cases hn : 0 < p.nodeCacheDelay
      · rw [if_pos hn] at hev
        simp only [List.mem_cons, List.not_mem_nil, or_false] at hev
        rcases hev with h | h
        · exact Or.inr (Or.inr (Or.inr (Or.inl ⟨Or.inl h, hc⟩)))
        · exact Or.inr (Or.inr (Or.inr (Or.inr ⟨h, hn, hc.1, hc.2⟩)))
      · rw [if_neg hn] at hev
        simp only [List.mem_cons, List.not_mem_nil, or_false] at hev
        exact Or.inr (Or.inr (Or.inr (Or.inl ⟨Or.inl hev, hc⟩)))
  · rw [if_neg hc] at hev
    rcases dbFetchExternal_events c p env query key ev hev with h1 | h1 | h1 | h1 | h1
    · exact Or.inl h1
    · exact Or.inr (Or.inl h1)
    · exact Or.inr (Or.inr (Or.inl h1))
    · exact Or.inr (Or.inr (Or.inr (Or.inl ⟨Or.inr (Or.inl h1.1), h1.2⟩)))
    · exact Or.inr (Or.inr (Or.inr (Or.inr h1)))

lemma externalQuery_events {T : Type} (c : Conn) (p : ParamsM) (env : Env T) :
    ∀ ev ∈ (externalQuery c p env).2,
      ev = .stmtFetch (generateQuery p) ∨ ev = .stmtExec (generateQuery p) ∨
      ev = .handlerRun ∨
      (ev = .memGet (externalKey c p) ∧ 0 < p.nodeCacheDelay ∧
        c.cacheEnabled = true) ∨
      ((ev = .extGet (externalKey c p) ∨ ev = .extSet (externalKey c p) ∨
        ev = .mutexLock ("mutex_" ++ externalKey c p) ∨
        ev = .mutexUnlock ("mutex_" ++ externalKey c p)) ∧
        0 < p.cacheDelay ∧ c.cacheEnabled = true) ∨
      (ev = .memSet (externalKey c p) ∧ 0 < p.nodeCacheDelay ∧
        0 < p.cacheDelay ∧ c.cacheEnabled = true) := by
  intro ev hev
  unfold externalQuery at hev
  by_cases h1 : 0 < p.nodeCacheDelay ∧ c.cacheEnabled = true
  · rw [if_pos h1] at hev
    rcases hm : env.l1Hit with _ | res
    · rw [hm] at hev
      rcases List.mem_cons.mp hev with h | h
      · exact Or.inr (Or.inr (Or.inr (Or.inl ⟨h, h1⟩)))
      · rcases externalL2Phase_events c p env (generateQuery p) (externalKey c p)
          ev h with h2 | h2 | h2 | h2 | h2
        · exact Or.inl h2
        · exact Or.inr (Or.inl h2)
        · exact Or.inr (Or.inr (Or.inl h2))
        · exact Or.inr (Or.inr (Or.inr (Or.inr (Or.inl h2))))
        · exact Or.inr (Or.inr (Or.inr (Or.inr (Or.inr h2))))
    · rw [hm] at hev
      simp only [List.mem_singleton] at hev
      exact Or.inr (Or.inr (Or.inr (Or.inl ⟨hev, h1⟩)))
  · rw [if_neg h1] at hev
    rcases externalL2Phase_events c p env (generateQuery p) (externalKey c p)
      ev hev with h2 | h2 | h2 | h2 | h2
    · exact Or.inl h2
    · exact Or.inr (Or.inl h2)
    · exact Or.inr (Or.inr (Or.inl h2))
    · exact Or.inr (Or.inr (Or.inr (Or.inr (Or.inl h2))))
    · exact Or.inr (Or.inr (Or.inr (Or.inr (Or.inr h2))))

lemma dbFetchInternal_events {T : Type} (c : Conn) (p : ParamsM) (env : Env T)
    (query key : String) :
    ∀ ev ∈ (dbFetchInternal c p env query key).2,
      ev = .stmtFetch query ∨ ev = .stmtExec query ∨ ev = .handlerRun ∨
      (ev = .memSet (if key = "" then internalKey c p else key) ∧
        0 < p.cacheDelay) := by
  intro ev hev
  unfold dbFetchInternal at hev
  rcases hp : env.prepare with e | u
  · rw [hp] at hev
    simp only [List.mem_singleton] at hev
    exact Or.inl hev
  · rw [hp] at hev
    rcases hx : env.exec with e | u2
    · rw [hx] at hev
      simp only [List.mem_cons, List.not_mem_nil, or_false] at hev
      tauto
    · rw [hx] at hev
      rcases hr : env.clbRes with _ | r <;> rcases he : env.clbErr with _ | er <;>
        rw [hr, he] at hev
      · simp only [List.mem_cons, List.not_mem_nil, or_false] at hev
        tauto
      · simp only [List.mem_cons, List.not_mem_nil, or_false] at hev
        tauto
      · dsimp only at hev
        by_cases hc : 0 < p.cacheDelay
        · rw [if_pos hc] at hev
          simp only [List.mem_cons, List.not_mem_nil, or_false] at hev
          rcases hev with h | h | h | h
          · exact Or.inl h
          · exact Or.inr (Or.inl h)
          · exact Or.inr (Or.inr (Or.inl h))
          · exact Or.inr (Or.inr (Or.inr ⟨h, hc⟩))
        · rw [if_neg hc] at hev
          simp only [List.mem_cons, List.not_mem_nil, or_false] at hev
          tauto
      · simp only [List.mem_cons, List.not_mem_nil, or_false] at hev
        tauto

lemma internalQuery_events {T : Type} (c : Conn) (p : ParamsM) (env : Env T) :
    ∀ ev ∈ (internalQuery c p env).2,
      ev = .stmtFetch (generateQuery p) ∨ ev = .stmtExec (generateQuery p) ∨
      ev = .handlerRun ∨
      ((ev = .memGet (internalKey c p) ∨ ev = .memSet (internalKey c p)) ∧
        0 < p.cacheDelay) := by
  intro ev hev
  unfold internalQuery at hev
  by_cases hc : 0 < p.cacheDelay
  · rw [if_pos hc] at hev
    rcases hm : env.l1Hit with _ | res
    · rw [hm] at hev
      rcases List.mem_cons.mp hev with h | h
      · exact Or.inr (Or.inr (Or.inr ⟨Or.inl h, hc⟩))
      · rcases dbFetchInternal_events c p env (generateQuery p) (internalKey c p)
          ev h with h2 | h2 | h2 | h2
        · exact Or.inl h2
        · exact Or.inr (Or.inl h2)
        · exact Or.inr (Or.inr (Or.inl h2))
        · refine Or.inr (Or.inr (Or.inr ⟨Or.inr ?_, h2.2⟩))
          rcases eq_or_ne (internalKey c p) "" with hk | hk
          · simpa [hk] using h2.1
          · simpa [hk] using h2.1
    · rw [hm] at hev
      simp only [List.mem_singleton] at hev
      exact Or.inr (Or.inr (Or.inr ⟨Or.inl hev, hc⟩))
  · rw [if_neg hc] at hev
    rcases dbFetchInternal_events c p env (generateQuery p) "" ev hev with
      h2 | h2 | h2 | h2
    · exact Or.inl h2
    · exact Or.inr (Or.inl h2)
    · exact Or.inr (Or.inr (Or.inl h2))
    · exact absurd h2.2 hc

lemma query_external_eq {T : Type} (c : Conn) (p : ParamsM) (env : Env T)
    (h : c.hasL2 = true) : Query c p env = externalQuery c p env := by
  unfold Query
  rw [h, if_pos rfl]

lemma query_internal_eq {T : Type} (c : Conn) (p : ParamsM) (env : Env T)
    (h : c.hasL2 = false) : Query c p env = internalQuery c p env := by
  unfold Query
  rw [h]
  simp

lemma query_reaches_db {T : Type} (c : Conn) (p : ParamsM) (env : Env T)
    (hl2 : c.hasL2 = true) (hl1 : env.l1Hit = none) (hm1 : env.l2Hit1 = none)
    (hlk : env.lockOk = true) (hm2 : env.l2Hit2 = none) :
    (Query c p env).1 =
      (dbFetchExternal c p env (generateQuery p) (externalKey c p)).1 := by
  rw [query_external_eq c p env hl2]
  have hphase : (externalL2Phase c p env (generateQuery p) (externalKey c p)).1 =
      (dbFetchExternal c p env (generateQuery p) (externalKey c p)).1 := by
    unfold externalL2Phase
    by_cases hc : 0 < p.cacheDelay ∧ c.cacheEnabled = true
    · rw [if_pos hc, hm1]
      dsimp only
      rw [hlk, if_pos rfl, hm2]
    · rw [if_neg hc]
  unfold externalQuery
  by_cases h1 : 0 < p.nodeCacheDelay ∧ c.cacheEnabled = true
  · rw [if_pos h1, hl1]
    dsimp only
    exact hphase
  · rw [if_neg h1]
    exact hphase

/-- Counterexample to claim C1: with no L2 store configured, caching
globally disabled (`CacheEnabled = false`) and `l2_ttl = 1`,
`internalQuery` still probes the in-memory store — the call returns the
cached value without touching the database and its trace contains the L1
read — so the in-memory store is read although `CacheEnabled` is
false. -/
theorem query_cache_gating_counterexample :
    Query { dbName := "db", cacheEnabled := false, hasL2 := false }
        { key := "k", cacheDelay := 1 }
        ({ l1Hit := some 42, l2Hit1 := none, lockOk := true, l2Hit2 := none,
           prepare := .ok (), exec := .ok (), clbRes := none, clbErr := none,
           marshalOk := true } : Env Nat) =
      ((some 42, none), [.memGet "k"]) ∧
    ({ dbName := "db", cacheEnabled := false, hasL2 := false } : Conn).cacheEnabled
      = false :=
  ⟨rfl, rfl⟩

/-- Amended claim C1: in the external (L2-configured) path every cache
interaction is gated exactly as the claim states — L1 probes need
`l1_ttl > 0` and `CacheEnabled`, L1 writes additionally need
`l2_ttl > 0`, and every L2 interaction needs `l2_ttl > 0` and
`CacheEnabled`.  In the internal path (no L2 store), however, the
in-memory store is probed and populated whenever `l2_ttl` (which serves
as the L1 TTL there) is positive, regardless of `CacheEnabled`, and the
external store is never touched. -/
theorem query_cache_gating {T : Type} (c : Conn) (p : ParamsM) (env : Env T) :
    (c.hasL2 = true →
      (∀ k, Event.memGet k ∈ (Query c p env).2 →
        0 < p.nodeCacheDelay ∧ c.cacheEnabled = true) ∧
      (∀ k, Event.memSet k ∈ (Query c p env).2 →
        0 < p.nodeCacheDelay ∧ 0 < p.cacheDelay ∧ c.cacheEnabled = true) ∧
      (∀ k, Event.extGet k ∈ (Query c p env).2 ∨
          Event.extSet k ∈ (Query c p env).2 →
        0 < p.cacheDelay ∧ c.cacheEnabled = true)) ∧
    (c.hasL2 = false →
      (∀ k, Event.memGet k ∈ (Query c p env).2 ∨
          Event.memSet k ∈ (Query c p env).2 →
        0 < p.cacheDelay) ∧
      (∀ k, Event.extGet k ∉ (Query c p env).2 ∧
        Event.extSet k ∉ (Query c p env).2)) := by
  constructor
  · intro hl2
    have hq := query_external_eq c p env hl2
    refine ⟨?_, ?_, ?_⟩
    · intro k hk
      rw [hq] at hk
      rcases externalQuery_events c p env _ hk with h | h | h | h | h | h
      · exact Event.noConfusion h
      · exact Event.noConfusion h
      · exact Event.noConfusion h
      · exact h.2
      · rcases h.1 with h1 | h1 | h1 | h1 <;> exact Event.noConfusion h1
      · exact Event.noConfusion h.1
    · intro k hk
      rw [hq] at hk
      rcases externalQuery_events c p env _ hk with h | h | h | h | h | h
      · exact Event.noConfusion h
      · exact Event.noConfusion h
      · exact Event.noConfusion h
      · exact Event.noConfusion h.1
      · rcases h.1 with h1 | h1 | h1 | h1 <;> exact Event.noConfusion h1
      · exact h.2
    · intro k hk
      rcases hk with hk | hk <;> rw [hq] at hk <;>
        rcases externalQuery_events c p env _ hk with h | h | h | h | h | h
      · exact Event.noConfusion h
      · exact Event.noConfusion h
      · exact Event.noConfusion h
      · exact Event.noConfusion h.1
      · exact h.2
      · exact Event.noConfusion h.1
      · exact Event.noConfusion h
      · exact Event.noConfusion h
      · exact Event.noConfusion h
      · exact Event.noConfusion h.1
      · exact h.2
      · exact Event.noConfusion h.1
  · intro hl2
    have hq := query_internal_eq c p env hl2
    constructor
    · intro k hk
      rcases hk with hk | hk <;> rw [hq] at hk <;>
        rcases internalQuery_events c p env _ hk with h | h | h | h
      · exact Event.noConfusion h
      · exact Event.noConfusion h
      · exact Event.noConfusion h
      · exact h.2
      · exact Event.noConfusion h
      · exact Event.noConfusion h
      · exact Event.noConfusion h
      · exact h.2
    · intro k
      constructor <;> intro hk <;> rw [hq] at hk <;>
        rcases internalQuery_events c p env _ hk with h | h | h | h
      · exact Event.noConfusion h
      · exact Event.noConfusion h
      · exact Event.noConfusion h
      · rcases h.1 with h1 | h1 <;> exact Event.noConfusion h1
      · exact Event.noConfusion h
      · exact Event.noConfusion h
      · exact Event.noConfusion h
      · rcases h.1 with h1 | h1 <;> exact Event.noConfusion h1

/-- Witness for the amended C1: a concrete internal-path call never
touches the external store. -/
theorem query_cache_gating_witness :
    Event.extGet "k" ∉
      (Query { dbName := "db", cacheEnabled := true, hasL2 := false }
        { key := "k", cacheDelay := 1 }
        ({ l1Hit := some 7, l2Hit1 := none, lockOk := true, l2Hit2 := none,
           prepare := .ok (), exec := .ok (), clbRes := none, clbErr := none,
           marshalOk := true } : Env Nat)).2 :=
  ((query_cache_gating _ _ _).2 rfl).2 "k" |>.1

/-- Claim C2: for an execution of the prepared statement (all caches
missed, the stampede lock held, preparation succeeded), the error result
of `Query` maps exactly as stated: driver error 1213 becomes
{ 45000, "DEADLOCK" }, deadline-exceeded becomes { 45000, "TIMEOUT" },
any other driver error is propagated verbatim with its number, SQL state
and message, any other error becomes the generic number-0 error, and a
codec Marshal failure during L2 population returns the handler's result
together with { 45000, "SERIALIZE" }. -/
theorem query_error_mapping {T : Type} (c : Conn) (p : ParamsM) (env : Env T)
    (hl2 : c.hasL2 = true) (hl1 : env.l1Hit = none) (hm1 : env.l2Hit1 = none)
    (hlk : env.lockOk = true) (hm2 : env.l2Hit2 = none)
    (hprep : env.prepare = .ok ()) :
    (∀ st msg, env.exec = .error (.mysqlErr 1213 st msg) →
      (Query c p env).1 =
        (none, some { number := 45000, message := "DEADLOCK" })) ∧
    (env.exec = .error .deadlineExceeded →
      (Query c p env).1 =
        (none, some { number := 45000, message := "TIMEOUT" })) ∧
    (∀ n st msg, n ≠ 1213 → env.exec = .error (.mysqlErr n st msg) →
      (Query c p env).1 =
        (none, some { number := n, sqlState := st, message := msg })) ∧
    (env.exec = .error .otherErr →
      (Query c p env).1 = (none, some { number := 0 })) ∧
    (∀ r : T, env.exec = .ok () → env.clbRes = some r → env.clbErr = none →
      0 < p.cacheDelay → c.cacheEnabled = true → env.marshalOk = false →
      (Query c p env).1 =
        (some r, some { number := 45000, message := "SERIALIZE" })) := by
  have hdb := query_reaches_db c p env hl2 hl1 hm1 hlk hm2
  refine ⟨?_, ?_, ?_, ?_, ?_⟩
  · intro st msg hexec
    rw [hdb]
    unfold dbFetchExternal
    rw [hprep]
    dsimp only
    rw [hexec]
    simp [execErrToMySQL]
  · intro hexec
    rw [hdb]
    unfold dbFetchExternal
    rw [hprep]
    dsimp only
    rw [hexec]
    simp [execErrToMySQL]
  · intro n st msg hn hexec
    rw [hdb]
    unfold dbFetchExternal
    rw [hprep]
    dsimp only
    rw [hexec]
    simp [execErrToMySQL, hn]
  · intro hexec
    rw [hdb]
    unfold dbFetchExternal
    rw [hprep]
    dsimp only
    rw [hexec]
    simp [execErrToMySQL]
  · intro r hexec hres herr httl hce hmf
    rw [hdb]
    unfold dbFetchExternal
    rw [hprep]
    dsimp only
    rw [hexec]
    dsimp only
    rw [hres, herr]
    dsimp only
    rw [if_pos ⟨httl, hce⟩, hmf]
    simp

/-- Witness for C2: a concrete deadlocked execution surfaces as
{ 45000, "DEADLOCK" }. -/
theorem query_error_mapping_witness :
    (Query { dbName := "db", cacheEnabled := true, hasL2 := true }
        { query := "SELECT 1" }
        ({ l1Hit := none, l2Hit1 := none, lockOk := true, l2Hit2 := none,
           prepare := .ok (), exec := .error (.mysqlErr 1213 [] "dl"),
           clbRes := none, clbErr := none, marshalOk := true } : Env Nat)).1 =
      (none, some { number := 45000, message := "DEADLOCK" }) :=
  (query_error_mapping _ _ _ rfl rfl rfl rfl rfl rfl).1 [] "dl" rfl

/-- Claim C3: in the external path, when the L2 probe misses and the
keyed-mutex Lock on "mutex_" + cache_key fails, the call returns
(nil result, nil error) without fetching or executing a statement and
without invoking the row handler; the trace shows the attempted lock on
the prefixed mutex key. -/
theorem query_lock_fail_abandons {T : Type} (c : Conn) (p : ParamsM) (env : Env T)
    (hl2 : c.hasL2 = true) (hce : c.cacheEnabled = true) (httl : 0 < p.cacheDelay)
    (hl1 : env.l1Hit = none) (hm1 : env.l2Hit1 = none) (hlk : env.lockOk = false) :
    (Query c p env).1 = (none, none) ∧
    Event.mutexLock ("mutex_" ++ externalKey c p) ∈ (Query c p env).2 ∧
    (∀ q, Event.stmtFetch q ∉ (Query c p env).2) ∧
    (∀ q, Event.stmtExec q ∉ (Query c p env).2) ∧
    Event.handlerRun ∉ (Query c p env).2 := by
  have hphase : externalL2Phase c p env (generateQuery p) (externalKey c p) =
      ((none, none), [.extGet (externalKey c p),
        .mutexLock ("mutex_" ++ externalKey c p)]) := by
    unfold externalL2Phase
    rw [if_pos ⟨httl, hce⟩, hm1]
    dsimp only
    rw [hlk]
    simp
  have hq : Query c p env =
      (((none, none) : QueryRes T),
        (if 0 < p.nodeCacheDelay then [Event.memGet (externalKey c p)] else []) ++
          [.extGet (externalKey c p),
           .mutexLock ("mutex_" ++ externalKey c p)]) := by
    rw [query_external_eq c p env hl2]
    unfold externalQuery
    by_cases h1 : 0 < p.nodeCacheDelay ∧ c.cacheEnabled = true
    · rw [if_pos h1, hl1]
      dsimp only
      rw [hphase]
      simp [h1.1]
    · rw [if_neg h1]
      rw [hphase]
      have hn : ¬ 0 < p.nodeCacheDelay := fun hpos => h1 ⟨hpos, hce⟩
      simp [hn]
  rw [hq]
  refine ⟨rfl, ?_, ?_, ?_, ?_⟩
  · by_cases hn : 0 < p.nodeCacheDelay <;> simp [hn]
  · intro q
    by_cases hn : 0 < p.nodeCacheDelay <;> simp [hn]
  · intro q
    by_cases hn : 0 < p.nodeCacheDelay <;> simp [hn]
  · by_cases hn : 0 < p.nodeCacheDelay <;> simp [hn]

/-- Witness for C3: a concrete abandoned call returns (nil, nil). -/
theorem query_lock_fail_abandons_witness :
    (Query { dbName := "db", cacheEnabled := true, hasL2 := true }
        { key := "k", cacheDelay := 5 }
        ({ l1Hit := none, l2Hit1 := none, lockOk := false, l2Hit2 := none,
           prepare := .ok (), exec := .ok (), clbRes := none, clbErr := none,
           marshalOk := true } : Env Nat)).1 = (none, none) :=
  (query_lock_fail_abandons _ _ _ rfl rfl (by decide) rfl rfl rfl).1

/-- Claim C10: with an L2 store configured and `l2_ttl = 0`, no call
ever writes to the L1 store — every L1 population site of the external
path sits inside the `l2_ttl > 0` branch — while an L1-only TTL still
probes L1 (the probe event is emitted whenever `l1_ttl > 0` and caching
is enabled). -/
theorem query_l2ttl_zero_no_l1_write {T : Type} (c : Conn) (p : ParamsM)
    (env : Env T) (hl2 : c.hasL2 = true) (httl : p.cacheDelay = 0) :
    (∀ k, Event.memSet k ∉ (Query c p env).2) ∧
    (0 < p.nodeCacheDelay → c.cacheEnabled = true →
      Event.memGet (externalKey c p) ∈ (Query c p env).2) := by
  constructor
  · intro k hk
    rw [query_external_eq c p env hl2] at hk
    rcases externalQuery_events c p env _ hk with h | h | h | h | h | h
    · exact Event.noConfusion h
    · exact Event.noConfusion h
    · exact Event.noConfusion h
    · exact Event.noConfusion h.1
    · rcases h.1 with h1 | h1 | h1 | h1 <;> exact Event.noConfusion h1
    · rw [httl] at h
      exact absurd h.2.2.1 (by decide)
  · intro hn hce
    rw [query_external_eq c p env hl2]
    unfold externalQuery
    rw [if_pos ⟨hn, hce⟩]
    rcases hm : env.l1Hit with _ | res
    · dsimp only
      exact List.mem_cons_self _ _
    · dsimp only
      exact List.mem_cons_self _ _

/-- Witness for C10: a concrete call with `l1_ttl > 0` but `l2_ttl = 0`
probes L1. -/
theorem query_l2ttl_zero_no_l1_write_witness :
    Event.memGet "k" ∈
      (Query { dbName := "db", cacheEnabled := true, hasL2 := true }
        { key := "k", nodeCacheDelay := 3 }
        ({ l1Hit := none, l2Hit1 := none, lockOk := true, l2Hit2 := none,
           prepare := .ok (), exec := .ok (), clbRes := some 7, clbErr := none,
           marshalOk := true } : Env Nat)).2 :=
  (query_l2ttl_zero_no_l1_write _ _ _ rfl rfl).2 (by decide) rfl

end ElumMySQL
